import Mathlib

/-!
Verification of the cli-utils resource-applier specification.

Part 1 embeds the pure helpers that are present in the source tree:
the List-kind helpers of pkg/kinds/lists.go and the fake
SubresourceStorage.Update of pkg/testutil/fake/subresource_storage.go.

Part 2 models the task-orchestration engine (inventory diff, apply/prune
execution, wait barrier, event pipeline).  The engine itself is not part of
the source tree, only its tests are, so those definitions are modelled from
the specification and are marked as such in their doc comments.
-/

namespace CliUtils

/-! ### pkg/kinds/lists.go

Go strings are embedded as lists of characters; `strings.HasSuffix` and
`strings.TrimSuffix` become `List.isSuffixOf` and a conditional `take`. -/

/-- Embeds `schema.GroupVersionKind`: a group, version and kind string. -/
structure GroupVersionKind where
  group : List Char
  version : List Char
  kind : List Char
deriving DecidableEq, Repr

/-- Embeds the constant `ListSuffix = "List"` of lists.go. -/
def ListSuffix : List Char := ['L', 'i', 's', 't']

/-- Embeds Go `strings.HasSuffix s suffix`. -/
def hasSuffix (s sfx : List Char) : Bool := sfx.isSuffixOf s

/-- Embeds Go `strings.TrimSuffix s suffix`: removes `sfx` from the end of
`s` when present, otherwise returns `s` unchanged. -/
def trimSuffix (s sfx : List Char) : List Char :=
  if sfx.isSuffixOf s then s.take (s.length - sfx.length) else s

/-- Embeds `IsListGVK`: true if the kind has a "List" suffix. -/
def IsListGVK (gvk : GroupVersionKind) : Bool := hasSuffix gvk.kind ListSuffix

/-- Embeds `ListGVKForItemGVK`: appends "List" to the kind. -/
def ListGVKForItemGVK (gvk : GroupVersionKind) : GroupVersionKind :=
  { gvk with kind := gvk.kind ++ ListSuffix }

/-- Embeds `ItemGVKForListGVK`: removes a trailing "List" from the kind. -/
def ItemGVKForListGVK (gvk : GroupVersionKind) : GroupVersionKind :=
  { gvk with kind := trimSuffix gvk.kind ListSuffix }

/-! ### pkg/testutil/fake/subresource_storage.go

Objects are embedded with the metadata that `Update` reads (uid,
resourceVersion, generation) and a flat field map standing for the
unstructured content; type/version conversion, which the source delegates to
the kinds package and always applies to an already-converted object here, is
the identity on this representation. -/

/-- Embedded unstructured object: identity metadata plus a flat map from
top-level field names to abstract values. -/
structure FakeObject where
  uid : String
  resourceVersion : String
  generation : Int
  fields : List (String × Nat)
deriving DecidableEq, Repr

/-- Embeds `getSubresourceInterface` / `object.NestedField`: reads a
top-level field, reporting whether it exists. -/
def getField (o : FakeObject) (f : String) : Option Nat :=
  (o.fields.find? (fun p => decide (p.1 = f))).map (fun p => p.2)

/-- Embeds `setSubresourceInterface` / `unstructured.SetNestedField`:
overwrites the field when present, otherwise adds it. -/
def setField (o : FakeObject) (f : String) (v : Nat) : FakeObject :=
  if o.fields.any (fun p => decide (p.1 = f)) then
    { o with fields := o.fields.map (fun p => if p.1 = f then (f, v) else p) }
  else
    { o with fields := o.fields ++ [(f, v)] }

/-- Embeds `client.SubResourceUpdateOptions`: only the `DryRun` list is read
by the fake. -/
structure SubResourceUpdateOptions where
  dryRun : List String
deriving DecidableEq, Repr

/-- The error outcomes of `SubresourceStorage.Update`. -/
inductive UpdateError
  | invalidOptions (msg : String)
  | notFound
  | noSubresourceField
  | conflictingUID
  | conflictingResourceVersion
  | invalidResourceVersion
deriving DecidableEq, Repr

/-- Embeds the `MemoryStorage.objects` map lookup, keyed by the object ID. -/
def lookupObj (objects : List (String × FakeObject)) (id : String) : Option FakeObject :=
  (objects.find? (fun p => decide (p.1 = id))).map (fun p => p.2)

/-- Embeds `MemoryStorage.putWithoutLock`: stores the object under its ID. -/
def putObj (objects : List (String × FakeObject)) (id : String) (o : FakeObject) :
    List (String × FakeObject) :=
  if objects.any (fun p => decide (p.1 = id)) then
    objects.map (fun p => if p.1 = id then (id, o) else p)
  else
    objects ++ [(id, o)]

/-- Embeds `incrementResourceVersion`: parses the version as a number and
increments it, failing on a non-numeric version. -/
def incrementResourceVersion (rv : String) : Option String :=
  rv.toNat?.map (fun n => toString (n + 1))

/-- Embeds the `SubresourceStorage` wrapper: the managed sub-resource field.
The backing `MemoryStorage` is passed explicitly to `Update`. -/
structure SubresourceStorage where
  field : String
deriving DecidableEq, Repr

/-- Embeds `SubresourceStorage.Update`.  The backing storage is passed in and
the (possibly updated) storage is returned together with the written-back
object.  `validateSubResourceUpdateOptions` delegates to the backing store
(whose source is not in the tree), so the validator is a parameter.
`kinds.LookupID` is represented by the `id` argument and the conversion to
the storage version is the identity on this representation. -/
def SubresourceStorage.Update (ss : SubresourceStorage)
    (validate : SubResourceUpdateOptions → Option UpdateError)
    (objects : List (String × FakeObject)) (id : String) (obj : FakeObject)
    (opts : SubResourceUpdateOptions) :
    Except UpdateError (List (String × FakeObject) × FakeObject) :=
  match validate opts with
  | some e => Except.error e
  | none =>
  match lookupObj objects id with
  | none => Except.error UpdateError.notFound
  | some cachedObj =>
  match getField obj ss.field with
  | none => Except.error UpdateError.noSubresourceField
  | some newSubresourceValue =>
  if 0 < opts.dryRun.length then
    -- don't merge or store the result
    Except.ok (objects, obj)
  else if obj.uid ≠ "" ∧ obj.uid ≠ cachedObj.uid then
    Except.error UpdateError.conflictingUID
  else if obj.resourceVersion ≠ "" ∧ obj.resourceVersion ≠ cachedObj.resourceVersion then
    Except.error UpdateError.conflictingResourceVersion
  else
  match incrementResourceVersion cachedObj.resourceVersion with
  | none => Except.error UpdateError.invalidResourceVersion
  | some rv2 =>
    let updatedObj := setField { cachedObj with resourceVersion := rv2 } ss.field newSubresourceValue
    Except.ok (putObj objects id updatedObj, updatedObj)

/-! ### The task-orchestration engine, modelled from the spec

The applier itself (sigs.k8s.io/cli-utils pkg/apply) is not in the source
tree; only its tests are.  The definitions below are therefore modelled from
the specification (sections 3, 4.1-4.5, 7). -/

/-- Modelled from the spec: ResourceID, the unique key
(group, kind, namespace, name) for a managed resource (spec section 3). -/
structure ObjMetadata where
  group : String
  kind : String
  ns : String
  name : String
deriving DecidableEq, Repr

/-- Modelled from the spec: a resource representation - its identity, the
ownership annotation recording which inventory id owns it, and an abstract
payload used for the no-op diff check (spec sections 3, 4.4). -/
structure Resource where
  meta : ObjMetadata
  owner : Option String
  spec : Nat
deriving DecidableEq, Repr

/-- Modelled from the spec: InventoryRecord - the identity of the logical
application (name, namespace, id) plus the set of owned ResourceIDs
(spec section 3). -/
structure InventoryInfo where
  name : String
  ns : String
  id : String
  set : List ObjMetadata
deriving DecidableEq, Repr

/-- Modelled from the spec: the identity of the inventory record's own
storage object (a ConfigMap named like the record), which must never be one
of the managed resources (spec section 4.1). -/
def invObjMeta (inv : InventoryInfo) : ObjMetadata :=
  { group := "", kind := "ConfigMap", ns := inv.ns, name := inv.name }

/-- Modelled from the spec: the InventoryPolicy enum (spec section 3). -/
inductive InventoryPolicy
  | mustMatch
  | adoptIfNoInventory
  | adoptAll
deriving DecidableEq, Repr

/-- Modelled from the spec: the immutable per-run options
(spec section 3).  ReconcileTimeout is a tick count; zero disables the Wait
barrier. -/
structure Options where
  noPrune : Bool := false
  inventoryPolicy : InventoryPolicy := InventoryPolicy.mustMatch
  reconcileTimeout : Nat := 0
  emitStatusEvents : Bool := false
  dryRunStrategy : Bool := false
deriving DecidableEq, Repr

/-- Modelled from the spec: the closed set of statuses reported by the
status-polling collaborator (spec section 6). -/
inductive ResourceStatus
  | inProgress
  | current
  | failed
  | terminating
  | unknown
deriving DecidableEq, Repr

/-- Modelled from the spec: one entry of the asynchronous status feed. -/
structure StatusUpdate where
  id : ObjMetadata
  status : ResourceStatus
deriving DecidableEq, Repr

/-- Modelled from the spec: the action kind of a task group. -/
inductive ActionType
  | inventory
  | applyAction
  | waitAction
  | pruneAction
deriving DecidableEq, Repr

/-- Modelled from the spec: the Started/Finished phase of a group boundary
event. -/
inductive GroupPhase
  | started
  | finished
deriving DecidableEq, Repr

/-- Modelled from the spec: per-object apply operations (spec section 3). -/
inductive ApplyOperation
  | created
  | updated
  | unchanged
  | errored
deriving DecidableEq, Repr

/-- Modelled from the spec: per-object prune operations (spec section 3). -/
inductive PruneOperation
  | pruned
  | pruneSkipped
deriving DecidableEq, Repr

/-- Modelled from the spec: the per-object error carried by an Apply event
(spec section 7). -/
inductive ObjectError
  | ownershipConflict
deriving DecidableEq, Repr

/-- Modelled from the spec: the run-fatal error taxonomy entry
(spec section 7). -/
inductive ApplierError
  | invalidInput (msg : String)
deriving DecidableEq, Repr

/-- Modelled from the spec: the tagged union of events on the run's output
stream (spec section 3). -/
inductive Event
  | initEvent
  | actionGroup (action : ActionType) (groupName : String) (phase : GroupPhase)
  | applyEvent (groupName : String) (id : ObjMetadata) (op : ApplyOperation)
      (err : Option ObjectError)
  | pruneEvent (groupName : String) (id : ObjMetadata) (op : PruneOperation)
  | statusEvent (id : ObjMetadata) (status : ResourceStatus)
  | errorEvent (e : ApplierError)
deriving DecidableEq, Repr

/-- Modelled from the spec: the resource store's `Get(id)` over a snapshot of
live objects (spec section 6). -/
def storeLookup (store : List Resource) (id : ObjMetadata) : Option Resource :=
  store.find? (fun r => decide (r.meta = id))

/-- Modelled from the spec: the store's update of an existing object. -/
def storeReplace (store : List Resource) (id : ObjMetadata) (r : Resource) : List Resource :=
  store.map (fun l => if l.meta = id then r else l)

/-- Modelled from the spec: the store's `Delete(id)`. -/
def storeDelete (store : List Resource) (id : ObjMetadata) : List Resource :=
  store.filter (fun l => decide (l.meta ≠ id))

/-- Modelled from the spec: the ownership-conflict check (spec section 3).
A resource whose live object is annotated with a different owner id is a
conflict unless the policy is AdoptAll; a missing live object or a missing
annotation is not a conflict ("adopt only unowned resources"). -/
def canApply (policy : InventoryPolicy) (invID : String) (live : Option Resource) : Bool :=
  match live with
  | none => true
  | some l =>
    match policy with
    | InventoryPolicy.adoptAll => true
    | _ =>
      match l.owner with
      | none => true
      | some o => decide (o = invID)

/-- Modelled from the spec: `Applier.prepareObjects` (spec section 4.1).
Fails with InvalidInput on a nil inventory record or when the desired set
contains the inventory record's own storage object.  Otherwise the apply set
is the desired set minus the ownership-conflict failures and the prune set
is the ledger set minus the desired IDs, reversed (empty under NoPrune). -/
def prepareObjects (inv : Option InventoryInfo) (desired : List Resource)
    (store : List Resource) (opts : Options) :
    Except ApplierError (List Resource × List ObjMetadata) :=
  match inv with
  | none => Except.error (ApplierError.invalidInput "the applier requires an inventory object")
  | some i =>
    if desired.any (fun r => decide (r.meta = invObjMeta i)) then
      Except.error (ApplierError.invalidInput "inventory object contained in desired objects")
    else
      Except.ok
        (desired.filter (fun r => canApply opts.inventoryPolicy i.id (storeLookup store r.meta)),
         if opts.noPrune then []
         else (i.set.filter (fun id => !(desired.any (fun r => decide (r.meta = id))))).reverse)

/-- Modelled from the spec: applying one resource (spec section 4.4).
An ownership conflict is reported as an errored Apply event and the store is
untouched; otherwise the resource is created, updated, or left unchanged
when the live payload already matches, and the owner annotation records the
applying inventory id. -/
def applyOne (policy : InventoryPolicy) (invID : String) (group : String)
    (store : List Resource) (r : Resource) : List Resource × Event :=
  if canApply policy invID (storeLookup store r.meta) then
    match storeLookup store r.meta with
    | none =>
        (store ++ [{ meta := r.meta, owner := some invID, spec := r.spec }],
         Event.applyEvent group r.meta ApplyOperation.created none)
    | some l =>
        if l.spec = r.spec then
          (store, Event.applyEvent group r.meta ApplyOperation.unchanged none)
        else
          (storeReplace store r.meta { meta := r.meta, owner := some invID, spec := r.spec },
           Event.applyEvent group r.meta ApplyOperation.updated none)
  else
    (store, Event.applyEvent group r.meta ApplyOperation.errored (some ObjectError.ownershipConflict))

/-- Modelled from the spec: an apply batch - per-object fault isolated, one
Apply event per object, in order (spec section 4.4). -/
def applyBatch (policy : InventoryPolicy) (invID : String) (group : String)
    (store : List Resource) : List Resource → List Resource × List Event
  | [] => (store, [])
  | r :: rest =>
    let s1 := (applyOne policy invID group store r).1
    let e := (applyOne policy invID group store r).2
    let res := applyBatch policy invID group s1 rest
    (res.1, e :: res.2)

/-- Modelled from the spec: pruning one resource (spec section 4.4):
delete-if-owned; an object annotated with a different (or no) owner id is
skipped with a PruneSkipped event.  The Bool reports an actual deletion. -/
def pruneOne (invID : String) (group : String) (store : List Resource) (id : ObjMetadata) :
    List Resource × Event × Bool :=
  match storeLookup store id with
  | none => (store, Event.pruneEvent group id PruneOperation.pruned, true)
  | some l =>
    if l.owner = some invID then
      (storeDelete store id, Event.pruneEvent group id PruneOperation.pruned, true)
    else
      (store, Event.pruneEvent group id PruneOperation.pruneSkipped, false)

/-- Modelled from the spec: a prune batch - per-object fault isolated; also
returns the IDs actually deleted, for the inventory-set step. -/
def pruneBatch (invID : String) (group : String) (store : List Resource) :
    List ObjMetadata → List Resource × List Event × List ObjMetadata
  | [] => (store, [], [])
  | id :: rest =>
    let step := pruneOne invID group store id
    let res := pruneBatch invID group step.1 rest
    (res.1, step.2.1 :: res.2.1, if step.2.2 then id :: res.2.2 else res.2.2)

/-- Modelled from the spec: a status is terminal for the wait barrier when
the resource is reconciled or failed (spec section 4.3). -/
def isTerminal : ResourceStatus → Bool
  | ResourceStatus.current => true
  | ResourceStatus.failed => true
  | _ => false

/-- Modelled from the spec: the wait barrier's termination condition - every
tracked ID reaches a terminal status somewhere in the polling feed
(spec section 4.3).  When this fails, the barrier only terminates through
cancellation or the deadline. -/
def reconciledAll (feed : List StatusUpdate) (tracked : List ObjMetadata) : Bool :=
  tracked.all (fun id => feed.any (fun u => decide (u.id = id) && isTerminal u.status))

/-- Modelled from the spec: the Status events forwarded to the output stream
while the wait barrier is active, when EmitStatusEvents is set
(spec sections 3, 5). -/
def waitStatusEvents (emit : Bool) (feed : List StatusUpdate) (tracked : List ObjMetadata) :
    List Event :=
  if emit then
    (feed.filter (fun u => tracked.any (fun id => decide (id = u.id)))).map
      (fun u => Event.statusEvent u.id u.status)
  else []

/-- Modelled from the spec: the event block of one action group - Started,
the per-object events, Finished (spec section 4.2). -/
def groupBlock (a : ActionType) (g : String) (mid : List Event) : List Event :=
  Event.actionGroup a g GroupPhase.started :: (mid ++ [Event.actionGroup a g GroupPhase.finished])

/-- Modelled from the spec: the inventory-add step's merge of the desired
IDs into the working copy of the ledger (spec section 4.2). -/
def unionIDs (a b : List ObjMetadata) : List ObjMetadata :=
  a ++ b.filter (fun id => decide (id ∉ a))

/-- Modelled from the spec: the observable outcome of a run - the ordered
event stream, the final store, the persisted ledger and whether the run was
cancelled (spec sections 4.5, 5). -/
structure RunResult where
  events : List Event
  store : List Resource
  ledger : List ObjMetadata
  cancelled : Bool
deriving DecidableEq, Repr

/-- Modelled from the spec: the run after a successful inventory diff
(spec sections 4.2-4.5).  The task queue is the fixed order inventory-add,
apply, wait (only when ReconcileTimeout is positive), prune (only when the
prune set is non-empty), inventory-set.  A wait barrier whose tracked set
never reconciles in the feed is terminated by cancellation: its group still
emits Finished, but no further group is dispatched and the ledger keeps its
previous membership. -/
def runFromPrepared (i : InventoryInfo) (desired store : List Resource) (opts : Options)
    (feed : List StatusUpdate) (applySet : List Resource) (pruneSet : List ObjMetadata) :
    RunResult :=
  let tracked := applySet.map (fun r => r.meta)
  let ap := applyBatch opts.inventoryPolicy i.id "apply-0" store desired
  let doWait := decide (0 < opts.reconcileTimeout)
  let waitOK := reconciledAll feed tracked
  let cancelled := doWait && !waitOK
  let pr := pruneBatch i.id "prune-0" ap.1 pruneSet
  { events :=
      Event.initEvent ::
        (groupBlock ActionType.inventory "inventory-add-0" []
          ++ groupBlock ActionType.applyAction "apply-0" ap.2
          ++ (if doWait then
                groupBlock ActionType.waitAction "wait-0"
                  (waitStatusEvents opts.emitStatusEvents feed tracked)
              else [])
          ++ (if cancelled then []
              else
                (if pruneSet.isEmpty then []
                 else groupBlock ActionType.pruneAction "prune-0" pr.2.1)
                  ++ groupBlock ActionType.inventory "inventory-set-0" [])),
    store := if cancelled then ap.1 else pr.1,
    ledger := if cancelled then i.set
              else (unionIDs i.set (desired.map (fun r => r.meta))).filter
                     (fun id => decide (id ∉ pr.2.2)),
    cancelled := cancelled }

/-- Modelled from the spec: `Applier.Run` (spec section 4.5), with the
asynchronous inputs made explicit - the status-poller feed drives the wait
barrier and implicit cancellation terminates a wait that never reconciles.
An inventory-diff failure surfaces as a single error event before any group
runs. -/
def Run (inv : Option InventoryInfo) (desired : List Resource) (store : List Resource)
    (opts : Options) (feed : List StatusUpdate) : RunResult :=
  match inv with
  | none =>
    { events := [Event.errorEvent (ApplierError.invalidInput "the applier requires an inventory object")],
      store := store, ledger := [], cancelled := false }
  | some i =>
    match prepareObjects (some i) desired store opts with
    | Except.error e =>
      { events := [Event.errorEvent e], store := store, ledger := i.set, cancelled := false }
    | Except.ok (applySet, pruneSet) =>
      runFromPrepared i desired store opts feed applySet pruneSet

/-- Whether an event belongs to the Prune action group (boundary or
per-object), for stating the NoPrune property. -/
def pruneRelated : Event → Bool
  | Event.actionGroup a _ _ => decide (a = ActionType.pruneAction)
  | Event.pruneEvent _ _ _ => true
  | _ => false

/-- Whether an event is a task-group event (boundary or per-object), for
stating that an InvalidInput failure aborts before any group runs. -/
def groupActivity : Event → Bool
  | Event.actionGroup _ _ _ => true
  | Event.applyEvent _ _ _ _ => true
  | Event.pruneEvent _ _ _ => true
  | Event.statusEvent _ _ => true
  | _ => false

/-- A per-object event admissible inside the open group `g`: Apply and Prune
events must carry `g` as their group name; Status events are interleaved by
the wait barrier; boundary, init and error events are not per-object. -/
def perObjOK (g : String) : Event → Bool
  | Event.applyEvent g2 _ _ _ => decide (g2 = g)
  | Event.pruneEvent g2 _ _ => decide (g2 = g)
  | Event.statusEvent _ _ => true
  | _ => false

/-- Scanner for the action-group protocol: groups never nest, a group name
is never started twice, every Started is closed by a matching Finished, and
per-object events occur only inside their group's interval. -/
def streamCheck (seen : List String) (openG : Option (ActionType × String)) :
    List Event → Bool
  | [] => openG.isNone
  | e :: rest =>
    match openG with
    | none =>
      match e with
      | Event.actionGroup a g GroupPhase.started =>
          decide (g ∉ seen) && streamCheck (g :: seen) (some (a, g)) rest
      | _ => false
    | some (a, g) =>
      match e with
      | Event.actionGroup a2 g2 GroupPhase.finished =>
          decide (a = a2) && decide (g = g2) && streamCheck seen none rest
      | Event.actionGroup _ _ GroupPhase.started => false
      | e2 => perObjOK g e2 && streamCheck seen (some (a, g)) rest

/-- A well-formed run stream: either a lone fatal error event, or an Init
event followed by a sequence of well-bracketed action-group blocks. -/
def groupStreamOK : List Event → Bool
  | [Event.errorEvent _] => true
  | Event.initEvent :: rest => streamCheck [] none rest
  | _ => false

/-- The Started boundary selector: the group of a Started event, if any. -/
def startedSel : Event → Option (ActionType × String)
  | Event.actionGroup a g GroupPhase.started => some (a, g)
  | _ => none

/-- The sequence of group Started boundary events of a stream, in order. -/
def startedGroups (es : List Event) : List (ActionType × String) :=
  es.filterMap startedSel

/-- The queue order of the engine's action groups (spec section 4.2). -/
def queueGroupOrder : List (ActionType × String) :=
  [(ActionType.inventory, "inventory-add-0"),
   (ActionType.applyAction, "apply-0"),
   (ActionType.waitAction, "wait-0"),
   (ActionType.pruneAction, "prune-0"),
   (ActionType.inventory, "inventory-set-0")]

/-- Occurrence count of an event in a stream. -/
def countEv (es : List Event) (e : Event) : Nat :=
  es.countP (fun x => decide (x = e))

/-- The concatenation of a list of action-group blocks, each given by its
action, group name and per-object events. -/
def blocksOf : List (ActionType × String × List Event) → List Event
  | [] => []
  | b :: rest => groupBlock b.1 b.2.1 b.2.2 ++ blocksOf rest

/-! ### Concrete fixtures used by the witness theorems -/

/-- Fixture: the identity of a Deployment resource. -/
def wMeta1 : ObjMetadata :=
  { group := "apps", kind := "Deployment", ns := "default", name := "foo" }

/-- Fixture: the identity of a Secret resource. -/
def wMeta2 : ObjMetadata :=
  { group := "", kind := "Secret", ns := "default", name := "sec" }

/-- Fixture: a desired Deployment. -/
def wRes1 : Resource := { meta := wMeta1, owner := none, spec := 1 }

/-- Fixture: a desired Secret. -/
def wRes2 : Resource := { meta := wMeta2, owner := none, spec := 2 }

/-- Fixture: an inventory record that owns the Secret from a previous run. -/
def wInv : InventoryInfo :=
  { name := "abc-123", ns := "test-ns", id := "test", set := [wMeta2] }

/-- Fixture: default run options. -/
def wOpts : Options := {}

/-- Fixture: run options with pruning disabled. -/
def wOptsNoPrune : Options := { noPrune := true }

/-- Fixture: run options enabling the wait barrier. -/
def wOptsWait : Options := { reconcileTimeout := 1 }

/-- Fixture: a live Deployment owned by a different inventory. -/
def wResOwnedOther : Resource := { meta := wMeta1, owner := some "unmatched", spec := 1 }

/-- Fixture: a live Secret owned by a different inventory. -/
def wSecretOwnedOther : Resource := { meta := wMeta2, owner := some "other", spec := 2 }

/-- Fixture: a live Secret owned by this run's inventory. -/
def wSecretOwnedSelf : Resource := { meta := wMeta2, owner := some "test", spec := 2 }

/-- Fixture: a cached object held by the fake subresource storage. -/
def wCached : FakeObject :=
  { uid := "uid-1", resourceVersion := "3", generation := 1, fields := [("status", 5)] }

/-- Fixture: an update input whose uid and resourceVersion both conflict
with the cached object. -/
def wInput : FakeObject :=
  { uid := "uid-2", resourceVersion := "9", generation := 1, fields := [("status", 7)] }

/-! ### Lemmas about the string-suffix helpers -/

theorem trimSuffix_append (k sfx : List Char) : trimSuffix (k ++ sfx) sfx = k := by
  have h : sfx.isSuffixOf (k ++ sfx) = true :=
    List.isSuffixOf_iff_suffix.mpr ⟨k, rfl⟩
  rw [trimSuffix, if_pos h, List.length_append, Nat.add_sub_cancel, List.take_left]

theorem trimSuffix_append_of_suffix (s sfx : List Char) (h : sfx <:+ s) :
    trimSuffix s sfx ++ sfx = s := by
  obtain ⟨t, rfl⟩ := h
  rw [trimSuffix_append]

/-- C9: appending the "List" suffix and then trimming it is the identity on
every GroupVersionKind, while trimming and then appending restores the
original exactly when the kind already has the "List" suffix
(`IsListGVK`). -/
theorem C9_list_item_gvk_round_trip (gvk : GroupVersionKind) :
    ItemGVKForListGVK (ListGVKForItemGVK gvk) = gvk ∧
    (ListGVKForItemGVK (ItemGVKForListGVK gvk) = gvk ↔ IsListGVK gvk = true) := by
  cases gvk with
  | mk g v k =>
    refine ⟨?_, ?_, ?_⟩
    · simp [ListGVKForItemGVK, ItemGVKForListGVK, trimSuffix_append]
    · intro h
      have hk : trimSuffix k ListSuffix ++ ListSuffix = k := by
        simpa [ListGVKForItemGVK, ItemGVKForListGVK] using h
      rw [IsListGVK, hasSuffix]
      exact List.isSuffixOf_iff_suffix.mpr ⟨_, hk⟩
    · intro h
      have hs : ListSuffix <:+ k :=
        List.isSuffixOf_iff_suffix.mp (by simpa [IsListGVK, hasSuffix] using h)
      simp [ListGVKForItemGVK, ItemGVKForListGVK, trimSuffix_append_of_suffix _ _ hs]

/-! ### The dry-run path of SubresourceStorage.Update -/

/-- C10: a SubresourceStorage.Update call with a non-empty DryRun option
that passes option validation, finds the stored object and finds the
sub-resource field returns success and leaves the backing storage (and the
input object) unchanged - the dry-run return precedes the UID and
ResourceVersion comparisons, so no uid or resourceVersion hypothesis is
needed. -/
theorem C10_subresource_update_dry_run (ss : SubresourceStorage)
    (validate : SubResourceUpdateOptions → Option UpdateError)
    (objects : List (String × FakeObject)) (id : String) (obj : FakeObject)
    (opts : SubResourceUpdateOptions) (c : FakeObject) (v : Nat)
    (hval : validate opts = none)
    (hfound : lookupObj objects id = some c)
    (hfield : getField obj ss.field = some v)
    (hdry : opts.dryRun ≠ []) :
    ss.Update validate objects id obj opts = Except.ok (objects, obj) := by
  have hlen : 0 < opts.dryRun.length := List.length_pos.mpr hdry
  rw [SubresourceStorage.Update, hval, hfound, hfield]
  simp [hlen]

/-- Witness for C10: a concrete dry-run update whose input object has a
conflicting uid ("uid-2" vs cached "uid-1") and a conflicting
resourceVersion ("9" vs cached "3") still succeeds and leaves the storage
untouched. -/
theorem C10_subresource_update_dry_run_witness :
    (fun (_ : SubResourceUpdateOptions) => (none : Option UpdateError)) ⟨["All"]⟩ = none ∧
    lookupObj [("ns/obj", wCached)] "ns/obj" = some wCached ∧
    getField wInput "status" = some 7 ∧
    (["All"] : List String) ≠ [] ∧
    wInput.uid ≠ wCached.uid ∧
    wInput.resourceVersion ≠ wCached.resourceVersion ∧
    SubresourceStorage.Update ⟨"status"⟩ (fun _ => none) [("ns/obj", wCached)] "ns/obj"
        wInput ⟨["All"]⟩ = Except.ok ([("ns/obj", wCached)], wInput) :=
  ⟨rfl, by decide, by decide, by decide, by decide, by decide,
   C10_subresource_update_dry_run ⟨"status"⟩ (fun _ => none) [("ns/obj", wCached)] "ns/obj"
     wInput ⟨["All"]⟩ wCached 7 rfl (by decide) (by decide) (by decide)⟩

/-! ### Inverting a successful inventory diff -/

theorem prepareObjects_ok_inv (i : InventoryInfo) (desired store : List Resource)
    (opts : Options) (A : List Resource) (P : List ObjMetadata)
    (h : prepareObjects (some i) desired store opts = Except.ok (A, P)) :
    desired.any (fun r => decide (r.meta = invObjMeta i)) = false ∧
    A = desired.filter (fun r => canApply opts.inventoryPolicy i.id (storeLookup store r.meta)) ∧
    P = (if opts.noPrune then []
         else (i.set.filter (fun id => !(desired.any (fun r => decide (r.meta = id))))).reverse) := by
  rw [prepareObjects] at h
  by_cases hc : desired.any (fun r => decide (r.meta = invObjMeta i)) = true
  · rw [if_pos hc] at h
    cases h
  · have hc2 : desired.any (fun r => decide (r.meta = invObjMeta i)) = false := by
      simpa using hc
    rw [if_neg hc] at h
    have h2 := Except.ok.inj h
    have hA := congrArg Prod.fst h2
    have hP := congrArg Prod.snd h2
    exact ⟨hc2, hA.symm, hP.symm⟩

theorem Run_ok (i : InventoryInfo) (desired store : List Resource) (opts : Options)
    (feed : List StatusUpdate) (A : List Resource) (P : List ObjMetadata)
    (h : prepareObjects (some i) desired store opts = Except.ok (A, P)) :
    Run (some i) desired store opts feed = runFromPrepared i desired store opts feed A P := by
  rw [Run, h]

/-- C1: a successful prepareObjects returns an apply set that is exactly the
desired set minus the resources failing the ownership-conflict check, a
prune set that is exactly the ledger IDs not among the desired IDs, and the
two are disjoint (stated for runs where pruning is not disabled, since C2
covers the NoPrune case). -/
theorem C1_prepareObjects_partition (i : InventoryInfo) (desired store : List Resource)
    (opts : Options) (A : List Resource) (P : List ObjMetadata)
    (hnp : opts.noPrune = false)
    (h : prepareObjects (some i) desired store opts = Except.ok (A, P)) :
    (∀ r : Resource, r ∈ A ↔
        r ∈ desired ∧ canApply opts.inventoryPolicy i.id (storeLookup store r.meta) = true) ∧
    (∀ id : ObjMetadata, id ∈ P ↔ id ∈ i.set ∧ id ∉ desired.map (fun r => r.meta)) ∧
    (∀ r ∈ A, r.meta ∉ P) := by
  obtain ⟨-, hA, hP⟩ := prepareObjects_ok_inv i desired store opts A P h
  rw [hnp, if_neg (by simp)] at hP
  have hmemP : ∀ id : ObjMetadata, id ∈ P ↔ id ∈ i.set ∧ id ∉ desired.map (fun r => r.meta) := by
    intro id
    rw [hP, List.mem_reverse, List.mem_filter]
    simp [List.mem_map]
  refine ⟨?_, hmemP, ?_⟩
  · intro r
    rw [hA, List.mem_filter]
  · intro r hrA hrP
    have hrd : r ∈ desired := (List.mem_filter.mp (hA ▸ hrA)).1
    have := (hmemP r.meta).mp hrP
    exact this.2 (List.mem_map.mpr ⟨r, hrd, rfl⟩)

/-- Witness for C1: one desired Deployment against a ledger that owns a
Secret - the Deployment is applied, the Secret is pruned, and the two sets
are disjoint. -/
theorem C1_prepareObjects_partition_witness :
    wOpts.noPrune = false ∧
    prepareObjects (some wInv) [wRes1] [] wOpts = Except.ok ([wRes1], [wMeta2]) ∧
    ((∀ r : Resource, r ∈ [wRes1] ↔
        r ∈ [wRes1] ∧ canApply wOpts.inventoryPolicy wInv.id (storeLookup [] r.meta) = true) ∧
     (∀ id : ObjMetadata, id ∈ [wMeta2] ↔
        id ∈ wInv.set ∧ id ∉ [wRes1].map (fun r => r.meta)) ∧
     (∀ r ∈ [wRes1], r.meta ∉ [wMeta2])) :=
  ⟨rfl, rfl,
   C1_prepareObjects_partition wInv [wRes1] [] wOpts [wRes1] [wMeta2] rfl rfl⟩

/-- C3: prepareObjects fails with an InvalidInput error whenever the
inventory argument is nil or the desired set contains an object whose
identity equals the inventory record's own storage object; on this failure
the run consists of the single error event - no task group ever runs and no
apply or prune set is produced. -/
theorem C3_prepareObjects_invalid_input (inv : Option InventoryInfo)
    (desired store : List Resource) (opts : Options) (feed : List StatusUpdate)
    (h : inv = none ∨ ∃ i, inv = some i ∧ ∃ r ∈ desired, r.meta = invObjMeta i) :
    ∃ msg, prepareObjects inv desired store opts = Except.error (ApplierError.invalidInput msg) ∧
      (Run inv desired store opts feed).events = [Event.errorEvent (ApplierError.invalidInput msg)] := by
  rcases h with rfl | ⟨i, rfl, r, hrd, hrm⟩
  · exact ⟨"the applier requires an inventory object", rfl, rfl⟩
  · have hc : desired.any (fun r => decide (r.meta = invObjMeta i)) = true := by
      rw [List.any_eq_true]
      exact ⟨r, hrd, by simp [hrm]⟩
    refine ⟨"inventory object contained in desired objects", ?_, ?_⟩
    · rw [prepareObjects, if_pos hc]
    · rw [Run, prepareObjects, if_pos hc]

/-- Witness for C3: a desired set containing the inventory record's own
ConfigMap makes the run abort with the InvalidInput error event. -/
theorem C3_prepareObjects_invalid_input_witness :
    ((some wInv : Option InventoryInfo) = none ∨
      ∃ i, (some wInv : Option InventoryInfo) = some i ∧
        ∃ r ∈ [({ meta := invObjMeta wInv, owner := none, spec := 0 } : Resource)],
          r.meta = invObjMeta i) ∧
    (∃ msg, prepareObjects (some wInv)
        [{ meta := invObjMeta wInv, owner := none, spec := 0 }] [] wOpts =
          Except.error (ApplierError.invalidInput msg) ∧
      (Run (some wInv) [{ meta := invObjMeta wInv, owner := none, spec := 0 }] [] wOpts []).events =
        [Event.errorEvent (ApplierError.invalidInput msg)]) :=
  ⟨Or.inr ⟨wInv, rfl, ⟨{ meta := invObjMeta wInv, owner := none, spec := 0 }, by decide, rfl⟩⟩,
   C3_prepareObjects_invalid_input (some wInv)
     [{ meta := invObjMeta wInv, owner := none, spec := 0 }] [] wOpts []
     (Or.inr ⟨wInv, rfl, ⟨{ meta := invObjMeta wInv, owner := none, spec := 0 }, by decide, rfl⟩⟩)⟩

/-! ### Store lookup lemmas -/

theorem storeLookup_nil (id : ObjMetadata) : storeLookup [] id = none := rfl

theorem storeLookup_cons (a : Resource) (as : List Resource) (id : ObjMetadata) :
    storeLookup (a :: as) id = if a.meta = id then some a else storeLookup as id := by
  by_cases h : a.meta = id
  · rw [storeLookup, List.find?_cons_of_pos _ (by simp [h]), if_pos h]
  · rw [storeLookup, List.find?_cons_of_neg _ (by simp [h]), if_neg h]
    rfl

theorem storeLookup_append_single (store : List Resource) (r : Resource) (id : ObjMetadata) :
    storeLookup (store ++ [r]) id =
      match storeLookup store id with
      | some l => some l
      | none => if r.meta = id then some r else none := by
  induction store with
  | nil => simp [storeLookup_cons, storeLookup_nil]
  | cons a as ih =>
    rw [List.cons_append, storeLookup_cons, storeLookup_cons]
    by_cases h : a.meta = id
    · rw [if_pos h, if_pos h]
    · rw [if_neg h, if_neg h, ih]

theorem storeLookup_replace_other (store : List Resource) (id id2 : ObjMetadata) (r : Resource)
    (hm : r.meta = id) (hne : id2 ≠ id) :
    storeLookup (storeReplace store id r) id2 = storeLookup store id2 := by
  induction store with
  | nil => rfl
  | cons a as ih =>
    rw [storeReplace, List.map_cons]
    rw [show (List.map (fun l => if l.meta = id then r else l) as) = storeReplace as id r from rfl]
    rw [storeLookup_cons, storeLookup_cons]
    by_cases ha : a.meta = id
    · rw [if_pos ha, if_neg (by rw [hm]; exact fun h => hne h.symm),
        if_neg (by rw [ha]; exact fun h => hne h.symm), ih]
    · rw [if_neg ha]
      by_cases hb : a.meta = id2
      · rw [if_pos hb, if_pos hb]
      · rw [if_neg hb, if_neg hb, ih]

theorem storeLookup_replace_self (store : List Resource) (id : ObjMetadata) (r l : Resource)
    (hm : r.meta = id) (hl : storeLookup store id = some l) :
    storeLookup (storeReplace store id r) id = some r := by
  induction store with
  | nil => rw [storeLookup_nil] at hl; cases hl
  | cons a as ih =>
    rw [storeLookup_cons] at hl
    by_cases ha : a.meta = id
    · rw [storeReplace, List.map_cons, if_pos ha,
        show (List.map (fun x => if x.meta = id then r else x) as) = storeReplace as id r from rfl,
        storeLookup_cons, if_pos hm]
    · rw [if_neg ha] at hl
      rw [storeReplace, List.map_cons, if_neg ha,
        show (List.map (fun x => if x.meta = id then r else x) as) = storeReplace as id r from rfl,
        storeLookup_cons, if_neg ha, ih hl]

theorem storeLookup_delete_self (store : List Resource) (id : ObjMetadata) :
    storeLookup (storeDelete store id) id = none := by
  induction store with
  | nil => rfl
  | cons a as ih =>
    rw [storeDelete, List.filter_cons]
    by_cases ha : a.meta = id
    · rw [if_neg (by simp [ha])]
      exact ih
    · rw [if_pos (by simp [ha])]
      rw [show (List.filter (fun l => decide (l.meta ≠ id)) as) = storeDelete as id from rfl]
      rw [storeLookup_cons, if_neg ha, ih]

theorem storeLookup_delete_other (store : List Resource) (id id2 : ObjMetadata)
    (h : id2 ≠ id) :
    storeLookup (storeDelete store id) id2 = storeLookup store id2 := by
  induction store with
  | nil => rfl
  | cons a as ih =>
    rw [storeDelete, List.filter_cons]
    by_cases ha : a.meta = id
    · rw [if_neg (by simp [ha])]
      rw [storeLookup_cons, if_neg (by rw [ha]; exact fun hc => h hc.symm)]
      exact ih
    · rw [if_pos (by simp [ha])]
      rw [show (List.filter (fun l => decide (l.meta ≠ id)) as) = storeDelete as id from rfl]
      rw [storeLookup_cons, storeLookup_cons, ih]

/-! ### Apply batch lemmas -/

theorem applyOne_store_other (policy : InventoryPolicy) (invID group : String)
    (store : List Resource) (r : Resource) (id : ObjMetadata) (h : r.meta ≠ id) :
    storeLookup (applyOne policy invID group store r).1 id = storeLookup store id := by
  rw [applyOne]
  by_cases hca : canApply policy invID (storeLookup store r.meta) = true
  · rw [if_pos hca]
    cases hl : storeLookup store r.meta with
    | none =>
      simp only []
      rw [storeLookup_append_single]
      cases hs : storeLookup store id with
      | none => simp [h]
      | some l => rfl
    | some l =>
      simp only []
      by_cases hspec : l.spec = r.spec
      · rw [if_pos hspec]
      · rw [if_neg hspec]
        exact storeLookup_replace_other store r.meta id _ rfl (fun hc => h hc.symm)
  · rw [if_neg hca]

theorem applyOne_event_store_eq (policy : InventoryPolicy) (invID group : String)
    (s s2 : List Resource) (r : Resource)
    (h : storeLookup s r.meta = storeLookup s2 r.meta) :
    (applyOne policy invID group s r).2 = (applyOne policy invID group s2 r).2 := by
  rw [applyOne, applyOne, h]
  by_cases hca : canApply policy invID (storeLookup s2 r.meta) = true
  · rw [if_pos hca, if_pos hca]
    cases hl : storeLookup s2 r.meta with
    | none => rfl
    | some l =>
      simp only []
      by_cases hspec : l.spec = r.spec
      · rw [if_pos hspec, if_pos hspec]
      · rw [if_neg hspec, if_neg hspec]
  · rw [if_neg hca, if_neg hca]

theorem applyBatch_store_other (policy : InventoryPolicy) (invID group : String)
    (rs : List Resource) (store : List Resource) (id : ObjMetadata)
    (h : id ∉ rs.map (fun r => r.meta)) :
    storeLookup (applyBatch policy invID group store rs).1 id = storeLookup store id := by
  induction rs generalizing store with
  | nil => rfl
  | cons r rest ih =>
    rw [List.map_cons, List.mem_cons] at h
    push_neg at h
    rw [applyBatch]
    simp only []
    rw [ih _ h.2, applyOne_store_other _ _ _ _ _ _ (fun hc => h.1 hc.symm)]

theorem applyBatch_events_shape (policy : InventoryPolicy) (invID group : String)
    (rs : List Resource) (store : List Resource) :
    ∀ e ∈ (applyBatch policy invID group store rs).2,
      ∃ id op err, e = Event.applyEvent group id op err ∧ id ∈ rs.map (fun r => r.meta) := by
  induction rs generalizing store with
  | nil => intro e he; cases he
  | cons r rest ih =>
    intro e he
    rw [applyBatch] at he
    simp only [List.mem_cons] at he
    rcases he with rfl | he
    · refine ⟨r.meta, ?_⟩
      rw [applyOne]
      by_cases hca : canApply policy invID (storeLookup store r.meta) = true
      · rw [if_pos hca]
        cases hl : storeLookup store r.meta with
        | none => exact ⟨_, _, rfl, by simp⟩
        | some l =>
          simp only []
          by_cases hspec : l.spec = r.spec
          · rw [if_pos hspec]; exact ⟨_, _, rfl, by simp⟩
          · rw [if_neg hspec]; exact ⟨_, _, rfl, by simp⟩
      · rw [if_neg hca]; exact ⟨_, _, rfl, by simp⟩
    · obtain ⟨id, op, err, rfl, hid⟩ := ih _ e he
      exact ⟨id, op, err, rfl, by simp [List.mem_cons]; right; simpa using hid⟩

theorem applyBatch_event_of_mem (policy : InventoryPolicy) (invID group : String)
    (rs : List Resource) (store : List Resource) (r : Resource)
    (hnd : (rs.map (fun x => x.meta)).Nodup) (hr : r ∈ rs) :
    (applyOne policy invID group store r).2 ∈ (applyBatch policy invID group store rs).2 := by
  induction rs generalizing store with
  | nil => cases hr
  | cons a rest ih =>
    rw [applyBatch]
    simp only [List.mem_cons]
    rcases List.mem_cons.mp hr with rfl | hr2
    · exact Or.inl rfl
    · right
      rw [List.map_cons, List.nodup_cons] at hnd
      have hmem : r.meta ∈ rest.map (fun x => x.meta) := List.mem_map.mpr ⟨r, hr2, rfl⟩
      have hne : r.meta ≠ a.meta := fun hc => hnd.1 (hc ▸ hmem)
      have hstable : storeLookup (applyOne policy invID group store a).1 r.meta
          = storeLookup store r.meta :=
        applyOne_store_other policy invID group store a r.meta (fun hc => hne hc.symm)
      rw [applyOne_event_store_eq policy invID group store
        (applyOne policy invID group store a).1 r hstable.symm]
      exact ih _ hnd.2 hr2

theorem applyBatch_no_event_for (policy : InventoryPolicy) (invID group : String)
    (rs : List Resource) (store : List Resource) (id : ObjMetadata)
    (h : id ∉ rs.map (fun r => r.meta)) :
    ∀ op err, Event.applyEvent group id op err ∉ (applyBatch policy invID group store rs).2 := by
  intro op err hmem
  obtain ⟨id2, op2, err2, heq, hid2⟩ :=
    applyBatch_events_shape policy invID group rs store _ hmem
  cases heq
  exact h hid2

theorem applyBatch_event_unique (policy : InventoryPolicy) (invID group : String)
    (rs : List Resource) (store : List Resource) (r : Resource)
    (hnd : (rs.map (fun x => x.meta)).Nodup) (hr : r ∈ rs) (op : ApplyOperation)
    (err : Option ObjectError)
    (hmem : Event.applyEvent group r.meta op err ∈ (applyBatch policy invID group store rs).2) :
    Event.applyEvent group r.meta op err = (applyOne policy invID group store r).2 := by
  induction rs generalizing store with
  | nil => cases hr
  | cons a rest ih =>
    rw [List.map_cons, List.nodup_cons] at hnd
    rw [applyBatch] at hmem
    simp only [List.mem_cons] at hmem
    rcases List.mem_cons.mp hr with rfl | hr2
    · rcases hmem with heq | hmem2
      · exact heq
      · exact absurd hmem2 (applyBatch_no_event_for policy invID group rest _ r.meta hnd.1 op err)
    · have hmemMeta : r.meta ∈ rest.map (fun x => x.meta) := List.mem_map.mpr ⟨r, hr2, rfl⟩
      have hne : r.meta ≠ a.meta := fun hc => hnd.1 (hc ▸ hmemMeta)
      rcases hmem with heq | hmem2
      · exfalso
        obtain ⟨id2, op2, err2, heq2, heqa⟩ : ∃ id2 op2 err2,
            (applyOne policy invID group store a).2 = Event.applyEvent group id2 op2 err2 ∧
              id2 = a.meta := by
          rw [applyOne]
          by_cases hca : canApply policy invID (storeLookup store a.meta) = true
          · rw [if_pos hca]
            cases hl : storeLookup store a.meta with
            | none => exact ⟨a.meta, _, _, rfl, rfl⟩
            | some l =>
              simp only []
              by_cases hspec : l.spec = a.spec
              · rw [if_pos hspec]; exact ⟨a.meta, _, _, rfl, rfl⟩
              · rw [if_neg hspec]; exact ⟨a.meta, _, _, rfl, rfl⟩
          · rw [if_neg hca]; exact ⟨a.meta, _, _, rfl, rfl⟩
        rw [heq2] at heq
        have := (Event.applyEvent.injEq _ _ _ _ _ _ _ _).mp heq.symm
        exact hne (this.2.1.symm.trans heqa)
      · have hstable : storeLookup (applyOne policy invID group store a).1 r.meta
            = storeLookup store r.meta :=
          applyOne_store_other policy invID group store a r.meta (fun hc => hne hc.symm)
        have := ih _ hnd.2 hr2 hmem2
        rw [this]
        exact (applyOne_event_store_eq policy invID group store
          (applyOne policy invID group store a).1 r hstable.symm).symm

/-! ### Prune batch lemmas -/

theorem pruneOne_store_other (invID group : String) (store : List Resource)
    (pid id : ObjMetadata) (h : pid ≠ id) :
    storeLookup (pruneOne invID group store pid).1 id = storeLookup store id := by
  rw [pruneOne]
  cases hl : storeLookup store pid with
  | none => rfl
  | some l =>
    simp only []
    by_cases ho : l.owner = some invID
    · rw [if_pos ho]
      exact storeLookup_delete_other store pid id (fun hc => h hc.symm)
    · rw [if_neg ho]

theorem pruneOne_event_store_eq (invID group : String) (s s2 : List Resource)
    (pid : ObjMetadata) (h : storeLookup s pid = storeLookup s2 pid) :
    (pruneOne invID group s pid).2.1 = (pruneOne invID group s2 pid).2.1 := by
  rw [pruneOne, pruneOne]
  rw [show storeLookup s pid = storeLookup s2 pid from h]
  cases hl : storeLookup s2 pid with
  | none => rfl
  | some l =>
    simp only []
    by_cases ho : l.owner = some invID
    · rw [if_pos ho, if_pos ho]
    · rw [if_neg ho, if_neg ho]

theorem pruneBatch_store_other (invID group : String) (ids : List ObjMetadata)
    (store : List Resource) (id : ObjMetadata) (h : id ∉ ids) :
    storeLookup (pruneBatch invID group store ids).1 id = storeLookup store id := by
  induction ids generalizing store with
  | nil => rfl
  | cons a rest ih =>
    rw [List.mem_cons] at h
    push_neg at h
    rw [pruneBatch]
    simp only []
    rw [ih _ h.2, pruneOne_store_other _ _ _ _ _ (fun hc => h.1 hc.symm)]

theorem pruneBatch_events_shape (invID group : String) (ids : List ObjMetadata)
    (store : List Resource) :
    ∀ e ∈ (pruneBatch invID group store ids).2.1,
      ∃ pid op, e = Event.pruneEvent group pid op ∧ pid ∈ ids := by
  induction ids generalizing store with
  | nil => intro e he; cases he
  | cons a rest ih =>
    intro e he
    rw [pruneBatch] at he
    simp only [List.mem_cons] at he
    rcases he with rfl | he
    · refine ⟨a, ?_⟩
      rw [pruneOne]
      cases hl : storeLookup store a with
      | none => exact ⟨_, rfl, by simp⟩
      | some l =>
        simp only []
        by_cases ho : l.owner = some invID
        · rw [if_pos ho]; exact ⟨_, rfl, by simp⟩
        · rw [if_neg ho]; exact ⟨_, rfl, by simp⟩
    · obtain ⟨pid, op, rfl, hpid⟩ := ih _ e he
      exact ⟨pid, op, rfl, List.mem_cons.mpr (Or.inr hpid)⟩

theorem pruneBatch_event_of_mem (invID group : String) (ids : List ObjMetadata)
    (store : List Resource) (id : ObjMetadata) (hnd : ids.Nodup) (hm : id ∈ ids) :
    (pruneOne invID group store id).2.1 ∈ (pruneBatch invID group store ids).2.1 := by
  induction ids generalizing store with
  | nil => cases hm
  | cons a rest ih =>
    rw [List.nodup_cons] at hnd
    rw [pruneBatch]
    simp only [List.mem_cons]
    rcases List.mem_cons.mp hm with rfl | hm2
    · exact Or.inl rfl
    · right
      have hne : id ≠ a := fun hc => hnd.1 (hc ▸ hm2)
      have hstable : storeLookup (pruneOne invID group store a).1 id = storeLookup store id :=
        pruneOne_store_other invID group store a id (fun hc => hne hc.symm)
      rw [pruneOne_event_store_eq invID group store (pruneOne invID group store a).1 id
        hstable.symm]
      exact ih _ hnd.2 hm2

theorem pruneBatch_lookup_final (invID group : String) (ids : List ObjMetadata)
    (store : List Resource) (id : ObjMetadata) (l : Resource)
    (hnd : ids.Nodup) (hm : id ∈ ids) (hl : storeLookup store id = some l) :
    storeLookup (pruneBatch invID group store ids).1 id =
      (if l.owner = some invID then none else some l) := by
  induction ids generalizing store with
  | nil => cases hm
  | cons a rest ih =>
    rw [List.nodup_cons] at hnd
    rw [pruneBatch]
    simp only []
    rcases List.mem_cons.mp hm with rfl | hm2
    · rw [pruneBatch_store_other invID group rest _ id hnd.1]
      rw [pruneOne, hl]
      simp only []
      by_cases ho : l.owner = some invID
      · rw [if_pos ho, if_pos ho]
        exact storeLookup_delete_self store id
      · rw [if_neg ho, if_neg ho, hl]
    · have hne : id ≠ a := fun hc => hnd.1 (hc ▸ hm2)
      have hstable : storeLookup (pruneOne invID group store a).1 id = storeLookup store id :=
        pruneOne_store_other invID group store a id (fun hc => hne hc.symm)
      exact ih _ hnd.2 hm2 (hstable.trans hl)

/-! ### Lemmas about the store entry left behind by a successful apply -/

theorem canApply_adopted (policy : InventoryPolicy) (invID : String) (l : Resource)
    (h : l.owner = some invID) : canApply policy invID (some l) = true := by
  cases policy <;> simp [canApply, h]

theorem applyOne_lookup_self (policy : InventoryPolicy) (invID group : String)
    (store : List Resource) (r : Resource)
    (hca : canApply policy invID (storeLookup store r.meta) = true) :
    ∃ l2, storeLookup (applyOne policy invID group store r).1 r.meta = some l2 ∧
      l2.spec = r.spec ∧ canApply policy invID (some l2) = true := by
  rw [applyOne, if_pos hca]
  cases hl : storeLookup store r.meta with
  | none =>
    refine ⟨{ meta := r.meta, owner := some invID, spec := r.spec }, ?_, rfl,
      canApply_adopted policy invID _ rfl⟩
    rw [storeLookup_append_single, hl]
    simp
  | some l =>
    simp only []
    by_cases hspec : l.spec = r.spec
    · rw [if_pos hspec]
      rw [hl] at hca
      exact ⟨l, hl, hspec, hca⟩
    · rw [if_neg hspec]
      exact ⟨{ meta := r.meta, owner := some invID, spec := r.spec },
        storeLookup_replace_self store r.meta _ l rfl hl, rfl,
        canApply_adopted policy invID _ rfl⟩

theorem applyBatch_lookup_self (policy : InventoryPolicy) (invID group : String)
    (rs : List Resource) (store : List Resource) (r : Resource)
    (hnd : (rs.map (fun x => x.meta)).Nodup) (hr : r ∈ rs)
    (hca : canApply policy invID (storeLookup store r.meta) = true) :
    ∃ l2, storeLookup (applyBatch policy invID group store rs).1 r.meta = some l2 ∧
      l2.spec = r.spec ∧ canApply policy invID (some l2) = true := by
  induction rs generalizing store with
  | nil => cases hr
  | cons a rest ih =>
    rw [List.map_cons, List.nodup_cons] at hnd
    rw [applyBatch]
    simp only []
    rcases List.mem_cons.mp hr with rfl | hr2
    · obtain ⟨l2, h1, h2, h3⟩ := applyOne_lookup_self policy invID group store r hca
      refine ⟨l2, ?_, h2, h3⟩
      rw [applyBatch_store_other policy invID group rest _ r.meta hnd.1, h1]
    · have hmem : r.meta ∈ rest.map (fun x => x.meta) := List.mem_map.mpr ⟨r, hr2, rfl⟩
      have hne : r.meta ≠ a.meta := fun hc => hnd.1 (hc ▸ hmem)
      have hstable : storeLookup (applyOne policy invID group store a).1 r.meta
          = storeLookup store r.meta :=
        applyOne_store_other policy invID group store a r.meta (fun hc => hne hc.symm)
      exact ih _ hnd.2 hr2 (by rw [hstable]; exact hca)

/-! ### Per-object event classification -/

theorem perObjOK_cases (g : String) (e : Event) (h : perObjOK g e = true) :
    (∃ id op err, e = Event.applyEvent g id op err) ∨
    (∃ id op, e = Event.pruneEvent g id op) ∨
    (∃ id st, e = Event.statusEvent id st) := by
  cases e with
  | applyEvent g2 id op err =>
    rw [perObjOK] at h
    exact Or.inl ⟨id, op, err, by rw [of_decide_eq_true h]⟩
  | pruneEvent g2 id op =>
    rw [perObjOK] at h
    exact Or.inr (Or.inl ⟨id, op, by rw [of_decide_eq_true h]⟩)
  | statusEvent id st => exact Or.inr (Or.inr ⟨id, st, rfl⟩)
  | initEvent => cases h
  | actionGroup a g2 ph => cases h
  | errorEvent e2 => cases h

theorem perObjOK_applyBatch (policy : InventoryPolicy) (invID group : String)
    (rs store : List Resource) :
    ∀ e ∈ (applyBatch policy invID group store rs).2, perObjOK group e = true := by
  intro e he
  obtain ⟨id, op, err, rfl, -⟩ := applyBatch_events_shape policy invID group rs store e he
  simp [perObjOK]

theorem perObjOK_pruneBatch (invID group : String) (ids : List ObjMetadata)
    (store : List Resource) :
    ∀ e ∈ (pruneBatch invID group store ids).2.1, perObjOK group e = true := by
  intro e he
  obtain ⟨pid, op, rfl, -⟩ := pruneBatch_events_shape invID group ids store e he
  simp [perObjOK]

theorem perObjOK_waitStatusEvents (g : String) (emit : Bool) (feed : List StatusUpdate)
    (tracked : List ObjMetadata) :
    ∀ e ∈ waitStatusEvents emit feed tracked, perObjOK g e = true := by
  intro e he
  rw [waitStatusEvents] at he
  by_cases hemit : emit = true
  · rw [if_pos hemit] at he
    obtain ⟨u, -, rfl⟩ := List.mem_map.mp he
    rfl
  · rw [if_neg hemit] at he
    cases he

/-! ### Stream checker lemmas -/

theorem streamCheck_mid (a : ActionType) (g : String) (seen : List String)
    (mid rest : List Event) (hmid : ∀ e ∈ mid, perObjOK g e = true) :
    streamCheck seen (some (a, g)) (mid ++ Event.actionGroup a g GroupPhase.finished :: rest)
      = streamCheck seen none rest := by
  induction mid with
  | nil =>
    rw [List.nil_append]
    simp [streamCheck]
  | cons e mid ih =>
    have hpe := hmid e (List.mem_cons_self e mid)
    have hrest : ∀ e2 ∈ mid, perObjOK g e2 = true :=
      fun e2 he2 => hmid e2 (List.mem_cons_of_mem e he2)
    rw [List.cons_append]
    rcases perObjOK_cases g e hpe with ⟨id, op, err, rfl⟩ | ⟨id, op, rfl⟩ | ⟨id, st, rfl⟩ <;>
      simp [streamCheck, perObjOK, ih hrest]

theorem streamCheck_block (a : ActionType) (g : String) (mid rest : List Event)
    (seen : List String) (hg : g ∉ seen) (hmid : ∀ e ∈ mid, perObjOK g e = true) :
    streamCheck seen none (groupBlock a g mid ++ rest) = streamCheck (g :: seen) none rest := by
  rw [groupBlock, List.cons_append, List.append_assoc, List.singleton_append]
  simp only [streamCheck]
  rw [streamCheck_mid a g _ mid rest hmid]
  simp [hg]

theorem blocksOf_streamCheck (L : List (ActionType × String × List Event)) (seen : List String)
    (hdisj : ∀ b ∈ L, b.2.1 ∉ seen)
    (hnd : (L.map (fun b => b.2.1)).Nodup)
    (hmid : ∀ b ∈ L, ∀ e ∈ b.2.2, perObjOK b.2.1 e = true) :
    streamCheck seen none (blocksOf L) = true := by
  induction L generalizing seen with
  | nil => rfl
  | cons b rest ih =>
    obtain ⟨a, g, mid⟩ := b
    rw [List.map_cons, List.nodup_cons] at hnd
    rw [blocksOf]
    rw [streamCheck_block a g mid _ seen (hdisj _ (List.mem_cons_self _ _))
      (fun e he => hmid _ (List.mem_cons_self _ _) e he)]
    apply ih
    · intro b2 hb2 hmem
      rcases List.mem_cons.mp hmem with heq | hseen
      · exact hnd.1 (heq ▸ List.mem_map.mpr ⟨b2, hb2, rfl⟩)
      · exact hdisj b2 (List.mem_cons_of_mem _ hb2) hseen
    · exact hnd.2
    · intro b2 hb2
      exact hmid b2 (List.mem_cons_of_mem _ hb2)

/-! ### Started-group sequence lemmas -/

theorem startedSel_of_perObjOK (g : String) (e : Event) (h : perObjOK g e = true) :
    startedSel e = none := by
  rcases perObjOK_cases g e h with ⟨id, op, err, rfl⟩ | ⟨id, op, rfl⟩ | ⟨id, st, rfl⟩ <;> rfl

theorem startedGroups_groupBlock (a : ActionType) (g : String) (mid rest : List Event)
    (hmid : ∀ e ∈ mid, perObjOK g e = true) :
    startedGroups (groupBlock a g mid ++ rest) = (a, g) :: startedGroups rest := by
  rw [groupBlock, List.cons_append, List.append_assoc, List.singleton_append]
  rw [startedGroups, List.filterMap_cons, List.filterMap_append]
  have hmid2 : List.filterMap startedSel mid = [] := by
    rw [List.filterMap_eq_nil_iff]
    intro e he
    exact startedSel_of_perObjOK g e (hmid e he)
  rw [hmid2, List.nil_append, List.filterMap_cons]
  rfl

theorem blocksOf_startedGroups (L : List (ActionType × String × List Event))
    (hmid : ∀ b ∈ L, ∀ e ∈ b.2.2, perObjOK b.2.1 e = true) :
    startedGroups (blocksOf L) = L.map (fun b => (b.1, b.2.1)) := by
  induction L with
  | nil => rfl
  | cons b rest ih =>
    obtain ⟨a, g, mid⟩ := b
    rw [blocksOf]
    rw [startedGroups_groupBlock a g mid _ (fun e he => hmid _ (List.mem_cons_self _ _) e he)]
    rw [List.map_cons]
    rw [show startedGroups (blocksOf rest) = rest.map (fun b => (b.1, b.2.1)) from
      ih (fun b2 hb2 => hmid b2 (List.mem_cons_of_mem _ hb2))]

/-! ### Boundary-event counting lemmas -/

theorem countEv_append (l1 l2 : List Event) (e : Event) :
    countEv (l1 ++ l2) e = countEv l1 e + countEv l2 e :=
  List.countP_append _ _ _

theorem countEv_cons (x : Event) (l : List Event) (e : Event) :
    countEv (x :: l) e = countEv l e + (if x = e then 1 else 0) := by
  rw [countEv, countEv, List.countP_cons]
  by_cases h : x = e <;> simp [h]

theorem countEv_nil (e : Event) : countEv [] e = 0 := rfl

theorem countEv_singleton (x e : Event) : countEv [x] e = if x = e then 1 else 0 := by
  rw [countEv_cons, countEv_nil, Nat.zero_add]

theorem countEv_mid_zero (g : String) (mid : List Event)
    (hmid : ∀ e ∈ mid, perObjOK g e = true) (a2 : ActionType) (g2 : String) (ph : GroupPhase) :
    countEv mid (Event.actionGroup a2 g2 ph) = 0 := by
  rw [countEv, List.countP_eq_zero]
  intro e he
  rcases perObjOK_cases g e (hmid e he) with ⟨id, op, err, rfl⟩ | ⟨id, op, rfl⟩ | ⟨id, st, rfl⟩ <;>
    simp

theorem countEv_groupBlock_boundary (a2 : ActionType) (g2 : String) (mid : List Event)
    (hmid : ∀ e ∈ mid, perObjOK g2 e = true) (a : ActionType) (g : String) :
    countEv (groupBlock a2 g2 mid) (Event.actionGroup a g GroupPhase.started)
      = countEv (groupBlock a2 g2 mid) (Event.actionGroup a g GroupPhase.finished) := by
  have hs : (Event.actionGroup a2 g2 GroupPhase.started
      = Event.actionGroup a g GroupPhase.started) ↔ (a2 = a ∧ g2 = g) := by simp
  have hf : (Event.actionGroup a2 g2 GroupPhase.finished
      = Event.actionGroup a g GroupPhase.finished) ↔ (a2 = a ∧ g2 = g) := by simp
  have hfs : ¬(Event.actionGroup a2 g2 GroupPhase.finished
      = Event.actionGroup a g GroupPhase.started) := by simp
  have hsf : ¬(Event.actionGroup a2 g2 GroupPhase.started
      = Event.actionGroup a g GroupPhase.finished) := by simp
  rw [groupBlock, countEv_cons, countEv_cons, countEv_append, countEv_append,
    countEv_singleton, countEv_singleton, countEv_mid_zero g2 mid hmid,
    countEv_mid_zero g2 mid hmid, if_neg hfs, if_neg hsf]
  by_cases hag : a2 = a ∧ g2 = g
  · rw [if_pos (hs.mpr hag), if_pos (hf.mpr hag)]
  · rw [if_neg (fun hc => hag (hs.mp hc)), if_neg (fun hc => hag (hf.mp hc))]

theorem blocksOf_countEv (L : List (ActionType × String × List Event))
    (hmid : ∀ b ∈ L, ∀ e ∈ b.2.2, perObjOK b.2.1 e = true) (a : ActionType) (g : String) :
    countEv (blocksOf L) (Event.actionGroup a g GroupPhase.started)
      = countEv (blocksOf L) (Event.actionGroup a g GroupPhase.finished) := by
  induction L with
  | nil => rfl
  | cons b rest ih =>
    obtain ⟨a2, g2, mid⟩ := b
    rw [blocksOf, countEv_append, countEv_append]
    rw [countEv_groupBlock_boundary a2 g2 mid
      (fun e he => hmid _ (List.mem_cons_self _ _) e he) a g]
    rw [ih (fun b2 hb2 => hmid b2 (List.mem_cons_of_mem _ hb2))]

/-! ### Closed form of the run's event stream -/

theorem blocksOf_append (L1 L2 : List (ActionType × String × List Event)) :
    blocksOf (L1 ++ L2) = blocksOf L1 ++ blocksOf L2 := by
  induction L1 with
  | nil => rfl
  | cons b rest ih => rw [List.cons_append, blocksOf, blocksOf, ih, List.append_assoc]

theorem runFromPrepared_events (i : InventoryInfo) (desired store : List Resource)
    (opts : Options) (feed : List StatusUpdate) (A : List Resource) (P : List ObjMetadata) :
    (runFromPrepared i desired store opts feed A P).events =
      Event.initEvent :: blocksOf
        ([(ActionType.inventory, "inventory-add-0", ([] : List Event)),
          (ActionType.applyAction, "apply-0",
            (applyBatch opts.inventoryPolicy i.id "apply-0" store desired).2)]
         ++ (if decide (0 < opts.reconcileTimeout) = true then
               [(ActionType.waitAction, "wait-0",
                 waitStatusEvents opts.emitStatusEvents feed (A.map (fun r => r.meta)))]
             else [])
         ++ (if (decide (0 < opts.reconcileTimeout)
                  && !reconciledAll feed (A.map (fun r => r.meta))) = true then []
             else
               (if P.isEmpty = true then []
                else [(ActionType.pruneAction, "prune-0",
                  (pruneBatch i.id "prune-0"
                    (applyBatch opts.inventoryPolicy i.id "apply-0" store desired).1 P).2.1)])
               ++ [(ActionType.inventory, "inventory-set-0", ([] : List Event))])) := by
  rw [runFromPrepared]
  by_cases hw : decide (0 < opts.reconcileTimeout) = true
  · by_cases hok : reconciledAll feed (A.map (fun r => r.meta)) = true
    · by_cases hpe : P.isEmpty = true
      · simp [hw, hok, hpe, blocksOf_append, blocksOf, List.append_assoc]
      · simp [hw, hok, hpe, blocksOf_append, blocksOf, List.append_assoc]
    · have hok2 : reconciledAll feed (A.map (fun r => r.meta)) = false :=
        Bool.eq_false_iff.mpr hok
      simp [hw, hok2, blocksOf_append, blocksOf, List.append_assoc]
  · have hw2 : decide (0 < opts.reconcileTimeout) = false := Bool.eq_false_iff.mpr hw
    by_cases hpe : P.isEmpty = true
    · simp [hw2, hpe, blocksOf_append, blocksOf, List.append_assoc]
    · simp [hw2, hpe, blocksOf_append, blocksOf, List.append_assoc]

/-- The three stream invariants for an Init event followed by well-formed
blocks with fresh names whose name sequence respects the queue order. -/
theorem initBlocks_invariants (L : List (ActionType × String × List Event))
    (hnd : (L.map (fun b => b.2.1)).Nodup)
    (hmid : ∀ b ∈ L, ∀ e ∈ b.2.2, perObjOK b.2.1 e = true)
    (hsub : (L.map (fun b => (b.1, b.2.1))).Sublist queueGroupOrder) :
    groupStreamOK (Event.initEvent :: blocksOf L) = true ∧
    (startedGroups (Event.initEvent :: blocksOf L)).Sublist queueGroupOrder ∧
    (∀ a g, countEv (Event.initEvent :: blocksOf L) (Event.actionGroup a g GroupPhase.started)
      = countEv (Event.initEvent :: blocksOf L) (Event.actionGroup a g GroupPhase.finished)) := by
  refine ⟨?_, ?_, ?_⟩
  · show streamCheck [] none (blocksOf L) = true
    exact blocksOf_streamCheck L [] (fun b hb => List.not_mem_nil _) hnd hmid
  · show (startedGroups (blocksOf L)).Sublist queueGroupOrder
    rw [blocksOf_startedGroups L hmid]
    exact hsub
  · intro a g
    rw [countEv_cons, countEv_cons, if_neg (by simp), if_neg (by simp),
      blocksOf_countEv L hmid a g]

/-- C4: on every event stream produced by Run, the action-group protocol
holds - each group is started at most once, every Started is closed by a
matching Finished with all of the group's per-object events strictly inside
the interval (the stream checker), Started and Finished counts agree for
every group, and the started groups appear in queue order (their sequence is
a sublist of the queue order). -/
theorem C4_event_stream_protocol (inv : Option InventoryInfo) (desired store : List Resource)
    (opts : Options) (feed : List StatusUpdate) :
    groupStreamOK (Run inv desired store opts feed).events = true ∧
    (startedGroups (Run inv desired store opts feed).events).Sublist queueGroupOrder ∧
    (∀ a g, countEv (Run inv desired store opts feed).events
        (Event.actionGroup a g GroupPhase.started)
      = countEv (Run inv desired store opts feed).events
        (Event.actionGroup a g GroupPhase.finished)) := by
  have herr : ∀ e : ApplierError,
      groupStreamOK [Event.errorEvent e] = true ∧
      (startedGroups [Event.errorEvent e]).Sublist queueGroupOrder ∧
      (∀ a g, countEv [Event.errorEvent e] (Event.actionGroup a g GroupPhase.started)
        = countEv [Event.errorEvent e] (Event.actionGroup a g GroupPhase.finished)) := by
    intro e
    refine ⟨rfl, ?_, ?_⟩
    · show ([] : List (ActionType × String)).Sublist queueGroupOrder
      exact List.nil_sublist _
    · intro a g
      rw [countEv_singleton, countEv_singleton, if_neg (by simp), if_neg (by simp)]
  cases inv with
  | none =>
    rw [Run]
    exact herr _
  | some i =>
    cases hp : prepareObjects (some i) desired store opts with
    | error e =>
      rw [Run, hp]
      exact herr e
    | ok pair =>
      obtain ⟨A, P⟩ := pair
      rw [Run_ok i desired store opts feed A P hp, runFromPrepared_events]
      have hmid : ∀ b ∈ ([(ActionType.inventory, "inventory-add-0", ([] : List Event)),
            (ActionType.applyAction, "apply-0",
              (applyBatch opts.inventoryPolicy i.id "apply-0" store desired).2)]
           ++ (if decide (0 < opts.reconcileTimeout) = true then
                 [(ActionType.waitAction, "wait-0",
                   waitStatusEvents opts.emitStatusEvents feed (A.map (fun r => r.meta)))]
               else [])
           ++ (if (decide (0 < opts.reconcileTimeout)
                    && !reconciledAll feed (A.map (fun r => r.meta))) = true then []
               else
                 (if P.isEmpty = true then []
                  else [(ActionType.pruneAction, "prune-0",
                    (pruneBatch i.id "prune-0"
                      (applyBatch opts.inventoryPolicy i.id "apply-0" store desired).1 P).2.1)])
                 ++ [(ActionType.inventory, "inventory-set-0", ([] : List Event))])),
          ∀ e ∈ b.2.2, perObjOK b.2.1 e = true := by
        intro b hb
        rw [List.mem_append, List.mem_append] at hb
        rcases hb with (hb | hb) | hb
        · rcases List.mem_cons.mp hb with rfl | hb2
          · exact fun e he => absurd he (List.not_mem_nil e)
          · rcases List.mem_cons.mp hb2 with rfl | hb3
            · exact perObjOK_applyBatch opts.inventoryPolicy i.id "apply-0" desired store
            · cases hb3
        · by_cases hw : decide (0 < opts.reconcileTimeout) = true
          · rw [if_pos hw] at hb
            rcases List.mem_cons.mp hb with rfl | hb2
            · exact perObjOK_waitStatusEvents _ _ _ _
            · cases hb2
          · rw [if_neg hw] at hb
            cases hb
        · by_cases hcc : (decide (0 < opts.reconcileTimeout)
              && !reconciledAll feed (A.map (fun r => r.meta))) = true
          · rw [if_pos hcc] at hb
            cases hb
          · rw [if_neg hcc, List.mem_append] at hb
            rcases hb with hb | hb
            · by_cases hpe : P.isEmpty = true
              · rw [if_pos hpe] at hb
                cases hb
              · rw [if_neg hpe] at hb
                rcases List.mem_cons.mp hb with rfl | hb2
                · exact perObjOK_pruneBatch i.id "prune-0" P _
                · cases hb2
            · rcases List.mem_cons.mp hb with rfl | hb2
              · exact fun e he => absurd he (List.not_mem_nil e)
              · cases hb2
      refine initBlocks_invariants _ ?_ hmid ?_
      · by_cases hw : (0 < opts.reconcileTimeout)
        · have hwd : decide (0 < opts.reconcileTimeout) = true := decide_eq_true hw
          by_cases hok : reconciledAll feed (A.map (fun r => r.meta)) = true
          · by_cases hpe : P.isEmpty = true
            · simp [hwd, hok, hpe] <;> decide
            · simp [hwd, hok, hpe] <;> decide
          · have hok2 : reconciledAll feed (A.map (fun r => r.meta)) = false :=
              Bool.eq_false_iff.mpr hok
            simp [hwd, hok2] <;> decide
        · have hwd : decide (0 < opts.reconcileTimeout) = false := decide_eq_false hw
          by_cases hpe : P.isEmpty = true
          · simp [hwd, hpe] <;> decide
          · simp [hwd, hpe] <;> decide
      · by_cases hw : (0 < opts.reconcileTimeout)
        · have hwd : decide (0 < opts.reconcileTimeout) = true := decide_eq_true hw
          by_cases hok : reconciledAll feed (A.map (fun r => r.meta)) = true
          · by_cases hpe : P.isEmpty = true
            · simp [hwd, hok, hpe] <;> decide
            · simp [hwd, hok, hpe] <;> decide
          · have hok2 : reconciledAll feed (A.map (fun r => r.meta)) = false :=
              Bool.eq_false_iff.mpr hok
            simp [hwd, hok2] <;> decide
        · have hwd : decide (0 < opts.reconcileTimeout) = false := decide_eq_false hw
          by_cases hpe : P.isEmpty = true
          · simp [hwd, hpe] <;> decide
          · simp [hwd, hpe] <;> decide

/-! ### Event membership helpers -/

theorem mem_groupBlock (e : Event) (a : ActionType) (g : String) (mid : List Event) :
    e ∈ groupBlock a g mid ↔
      e = Event.actionGroup a g GroupPhase.started ∨ e ∈ mid ∨
        e = Event.actionGroup a g GroupPhase.finished := by
  rw [groupBlock]
  simp [List.mem_cons, List.mem_append]

theorem mem_blocksOf (e : Event) (L : List (ActionType × String × List Event)) :
    e ∈ blocksOf L ↔ ∃ b ∈ L, e ∈ groupBlock b.1 b.2.1 b.2.2 := by
  induction L with
  | nil => simp [blocksOf]
  | cons b rest ih =>
    rw [blocksOf, List.mem_append, ih]
    constructor
    · rintro (he | ⟨b2, hb2, he⟩)
      · exact ⟨b, List.mem_cons_self _ _, he⟩
      · exact ⟨b2, List.mem_cons_of_mem _ hb2, he⟩
    · rintro ⟨b2, hb2, he⟩
      rcases List.mem_cons.mp hb2 with rfl | hb3
      · exact Or.inl he
      · exact Or.inr ⟨b2, hb3, he⟩

theorem waitStatusEvents_shape (emit : Bool) (feed : List StatusUpdate)
    (tracked : List ObjMetadata) :
    ∀ e ∈ waitStatusEvents emit feed tracked, ∃ id st, e = Event.statusEvent id st := by
  intro e he
  rw [waitStatusEvents] at he
  by_cases hemit : emit = true
  · rw [if_pos hemit] at he
    obtain ⟨u, -, rfl⟩ := List.mem_map.mp he
    exact ⟨u.id, u.status, rfl⟩
  · rw [if_neg hemit] at he
    cases he

theorem groupBlock_getLast (a : ActionType) (g : String) (mid : List Event) :
    (groupBlock a g mid).getLast? = some (Event.actionGroup a g GroupPhase.finished) := by
  rw [groupBlock,
    show Event.actionGroup a g GroupPhase.started ::
        (mid ++ [Event.actionGroup a g GroupPhase.finished])
      = (Event.actionGroup a g GroupPhase.started :: mid)
          ++ [Event.actionGroup a g GroupPhase.finished] from (List.cons_append _ _ _).symm,
    List.getLast?_concat]

theorem runFromPrepared_store (i : InventoryInfo) (desired store : List Resource)
    (opts : Options) (feed : List StatusUpdate) (A : List Resource) (P : List ObjMetadata) :
    (runFromPrepared i desired store opts feed A P).store =
      if (decide (0 < opts.reconcileTimeout)
           && !reconciledAll feed (A.map (fun r => r.meta))) = true then
        (applyBatch opts.inventoryPolicy i.id "apply-0" store desired).1
      else
        (pruneBatch i.id "prune-0"
          (applyBatch opts.inventoryPolicy i.id "apply-0" store desired).1 P).1 := rfl

theorem runFromPrepared_cancelled (i : InventoryInfo) (desired store : List Resource)
    (opts : Options) (feed : List StatusUpdate) (A : List Resource) (P : List ObjMetadata) :
    (runFromPrepared i desired store opts feed A P).cancelled =
      (decide (0 < opts.reconcileTimeout)
        && !reconciledAll feed (A.map (fun r => r.meta))) := rfl

/-- Lifts an event of the apply group into the run's event stream. -/
theorem apply_block_mem_events (i : InventoryInfo) (desired store : List Resource)
    (opts : Options) (feed : List StatusUpdate) (A : List Resource) (P : List ObjMetadata)
    (e : Event)
    (hp : prepareObjects (some i) desired store opts = Except.ok (A, P))
    (he : e ∈ groupBlock ActionType.applyAction "apply-0"
            (applyBatch opts.inventoryPolicy i.id "apply-0" store desired).2) :
    e ∈ (Run (some i) desired store opts feed).events := by
  rw [Run_ok i desired store opts feed A P hp, runFromPrepared_events]
  apply List.mem_cons_of_mem
  rw [mem_blocksOf]
  refine ⟨(ActionType.applyAction, "apply-0",
    (applyBatch opts.inventoryPolicy i.id "apply-0" store desired).2), ?_, he⟩
  simp [List.mem_append, List.mem_cons]

/-- Lifts an event of the prune group into the run's event stream, when the
prune group is dispatched (non-empty prune set, no cancellation). -/
theorem prune_block_mem_events (i : InventoryInfo) (desired store : List Resource)
    (opts : Options) (feed : List StatusUpdate) (A : List Resource) (P : List ObjMetadata)
    (e : Event)
    (hp : prepareObjects (some i) desired store opts = Except.ok (A, P))
    (hpe : P ≠ [])
    (hcc : (decide (0 < opts.reconcileTimeout)
        && !reconciledAll feed (A.map (fun r => r.meta))) = false)
    (he : e ∈ groupBlock ActionType.pruneAction "prune-0"
            (pruneBatch i.id "prune-0"
              (applyBatch opts.inventoryPolicy i.id "apply-0" store desired).1 P).2.1) :
    e ∈ (Run (some i) desired store opts feed).events := by
  rw [Run_ok i desired store opts feed A P hp, runFromPrepared_events]
  apply List.mem_cons_of_mem
  rw [mem_blocksOf]
  refine ⟨(ActionType.pruneAction, "prune-0",
    (pruneBatch i.id "prune-0"
      (applyBatch opts.inventoryPolicy i.id "apply-0" store desired).1 P).2.1), ?_, he⟩
  rw [List.mem_append, List.mem_append]
  right
  rw [if_neg (by rw [hcc]; exact Bool.false_ne_true)]
  rw [List.mem_append]
  left
  rw [if_neg (by rw [List.isEmpty_eq_true]; exact hpe)]
  exact List.mem_cons_self _ _

/-- Every Apply event on a run's stream originates from the apply batch. -/
theorem Run_applyEvent_inversion (i : InventoryInfo) (desired store : List Resource)
    (opts : Options) (feed : List StatusUpdate) (A : List Resource) (P : List ObjMetadata)
    (gname : String) (id : ObjMetadata) (op : ApplyOperation) (err : Option ObjectError)
    (hp : prepareObjects (some i) desired store opts = Except.ok (A, P))
    (hmem : Event.applyEvent gname id op err ∈ (Run (some i) desired store opts feed).events) :
    Event.applyEvent gname id op err
      ∈ (applyBatch opts.inventoryPolicy i.id "apply-0" store desired).2 := by
  rw [Run_ok i desired store opts feed A P hp, runFromPrepared_events] at hmem
  rcases List.mem_cons.mp hmem with heq | hmem2
  · cases heq
  · rw [mem_blocksOf] at hmem2
    obtain ⟨b, hbL, hbe⟩ := hmem2
    rw [List.mem_append, List.mem_append] at hbL
    rcases hbL with (hb | hb) | hb
    · rcases List.mem_cons.mp hb with rfl | hb2
      · rcases (mem_groupBlock _ _ _ _).mp hbe with heq | hm | heq
        · cases heq
        · cases hm
        · cases heq
      · rcases List.mem_cons.mp hb2 with rfl | hb3
        · rcases (mem_groupBlock _ _ _ _).mp hbe with heq | hm | heq
          · cases heq
          · exact hm
          · cases heq
        · cases hb3
    · by_cases hw : decide (0 < opts.reconcileTimeout) = true
      · rw [if_pos hw] at hb
        rcases List.mem_cons.mp hb with rfl | hb2
        · rcases (mem_groupBlock _ _ _ _).mp hbe with heq | hm | heq
          · cases heq
          · obtain ⟨id2, st2, heq2⟩ := waitStatusEvents_shape _ _ _ _ hm
            cases heq2
          · cases heq
        · cases hb2
      · rw [if_neg hw] at hb
        cases hb
    · by_cases hcc : (decide (0 < opts.reconcileTimeout)
          && !reconciledAll feed (A.map (fun r => r.meta))) = true
      · rw [if_pos hcc] at hb
        cases hb
      · rw [if_neg hcc, List.mem_append] at hb
        rcases hb with hb | hb
        · by_cases hpe : P.isEmpty = true
          · rw [if_pos hpe] at hb
            cases hb
          · rw [if_neg hpe] at hb
            rcases List.mem_cons.mp hb with rfl | hb2
            · rcases (mem_groupBlock _ _ _ _).mp hbe with heq | hm | heq
              · cases heq
              · obtain ⟨pid, op2, heq2, -⟩ := pruneBatch_events_shape _ _ _ _ _ hm
                cases heq2
              · cases heq
            · cases hb2
        · rcases List.mem_cons.mp hb with rfl | hb2
          · rcases (mem_groupBlock _ _ _ _).mp hbe with heq | hm | heq
            · cases heq
            · cases hm
            · cases heq
          · cases hb2

/-! ### NoPrune disables the prune step -/

theorem pruneRelated_block_of_ne (a : ActionType) (g : String) (mid : List Event) (e : Event)
    (ha : a ≠ ActionType.pruneAction)
    (hmid : ∀ e2 ∈ mid, pruneRelated e2 = false)
    (he : e ∈ groupBlock a g mid) : pruneRelated e = false := by
  rcases (mem_groupBlock _ _ _ _).mp he with rfl | hm | rfl
  · simp [pruneRelated, ha]
  · exact hmid e hm
  · simp [pruneRelated, ha]

/-- C2: when NoPrune is set, every successful inventory diff has an empty
prune set, and the run's event stream contains no Prune group boundary event
and no per-object Prune event. -/
theorem C2_noPrune_empty_prune (inv : Option InventoryInfo) (desired store : List Resource)
    (opts : Options) (feed : List StatusUpdate) (hnp : opts.noPrune = true) :
    (∀ A P, prepareObjects inv desired store opts = Except.ok (A, P) → P = []) ∧
    (∀ e ∈ (Run inv desired store opts feed).events, pruneRelated e = false) := by
  constructor
  · intro A P h
    cases inv with
    | none => cases h
    | some i =>
      obtain ⟨-, -, hP⟩ := prepareObjects_ok_inv i desired store opts A P h
      rw [hP, if_pos hnp]
  · cases inv with
    | none =>
      rw [Run]
      intro e he
      rcases List.mem_cons.mp he with rfl | he2
      · rfl
      · cases he2
    | some i =>
      cases hp : prepareObjects (some i) desired store opts with
      | error err =>
        rw [Run, hp]
        intro e he
        rcases List.mem_cons.mp he with rfl | he2
        · rfl
        · cases he2
      | ok pair =>
        obtain ⟨A, P⟩ := pair
        have hP : P = [] := by
          obtain ⟨-, -, hP⟩ := prepareObjects_ok_inv i desired store opts A P hp
          rw [hP, if_pos hnp]
        rw [Run_ok i desired store opts feed A P hp, runFromPrepared_events]
        intro e he
        rcases List.mem_cons.mp he with rfl | he2
        · rfl
        · rw [mem_blocksOf] at he2
          obtain ⟨b, hbL, hbe⟩ := he2
          rw [List.mem_append, List.mem_append] at hbL
          rcases hbL with (hb | hb) | hb
          · rcases List.mem_cons.mp hb with rfl | hb2
            · exact pruneRelated_block_of_ne _ _ _ _ (fun hcon => ActionType.noConfusion hcon)
                (fun e2 he2 => absurd he2 (List.not_mem_nil e2)) hbe
            · rcases List.mem_cons.mp hb2 with rfl | hb3
              · refine pruneRelated_block_of_ne _ _ _ _ (fun hcon => ActionType.noConfusion hcon) ?_ hbe
                intro e2 he2
                obtain ⟨id2, op2, err2, rfl, -⟩ :=
                  applyBatch_events_shape opts.inventoryPolicy i.id "apply-0" desired store e2 he2
                rfl
              · cases hb3
          · by_cases hw : decide (0 < opts.reconcileTimeout) = true
            · rw [if_pos hw] at hb
              rcases List.mem_cons.mp hb with rfl | hb2
              · refine pruneRelated_block_of_ne _ _ _ _ (fun hcon => ActionType.noConfusion hcon) ?_ hbe
                intro e2 he2
                obtain ⟨id2, st2, rfl⟩ := waitStatusEvents_shape _ _ _ _ he2
                rfl
              · cases hb2
            · rw [if_neg hw] at hb
              cases hb
          · by_cases hcc : (decide (0 < opts.reconcileTimeout)
                && !reconciledAll feed (A.map (fun r => r.meta))) = true
            · rw [if_pos hcc] at hb
              cases hb
            · rw [if_neg hcc, List.mem_append] at hb
              rcases hb with hb | hb
              · rw [if_pos (by rw [hP]; rfl)] at hb
                cases hb
              · rcases List.mem_cons.mp hb with rfl | hb2
                · exact pruneRelated_block_of_ne _ _ _ _ (fun hcon => ActionType.noConfusion hcon)
                    (fun e2 he2 => absurd he2 (List.not_mem_nil e2)) hbe
                · cases hb2

/-- Witness for C2: a run with NoPrune set against a ledger owning a Secret
still produces no prune set and no Prune events. -/
theorem C2_noPrune_empty_prune_witness :
    wOptsNoPrune.noPrune = true ∧
    ((∀ A P, prepareObjects (some wInv) [wRes1] [] wOptsNoPrune = Except.ok (A, P) → P = []) ∧
     (∀ e ∈ (Run (some wInv) [wRes1] [] wOptsNoPrune []).events, pruneRelated e = false)) :=
  ⟨rfl, C2_noPrune_empty_prune (some wInv) [wRes1] [] wOptsNoPrune [] rfl⟩

/-! ### Cancellation during an active wait barrier -/

theorem init_blocksOf_getLast (L : List (ActionType × String × List Event))
    (a : ActionType) (g : String) (mid : List Event) :
    (Event.initEvent :: blocksOf (L ++ [(a, g, mid)])).getLast?
      = some (Event.actionGroup a g GroupPhase.finished) := by
  rw [blocksOf_append, blocksOf, blocksOf, List.append_nil]
  rw [show Event.initEvent :: (blocksOf L ++ groupBlock a g mid)
      = (Event.initEvent :: blocksOf L) ++ groupBlock a g mid from by rw [List.cons_append]]
  rw [List.getLast?_append, groupBlock_getLast]
  rfl

/-- C5: when the wait barrier is active (positive ReconcileTimeout) and the
feed never reconciles the tracked set, the run is cancelled, the active Wait
group still emits its Finished event, and that event is the last event on
the stream - no further group is dispatched and the stream closes there. -/
theorem C5_cancel_during_wait (i : InventoryInfo) (desired store : List Resource)
    (opts : Options) (feed : List StatusUpdate) (A : List Resource) (P : List ObjMetadata)
    (hp : prepareObjects (some i) desired store opts = Except.ok (A, P))
    (hw : 0 < opts.reconcileTimeout)
    (hnr : reconciledAll feed (A.map (fun r => r.meta)) = false) :
    (Run (some i) desired store opts feed).cancelled = true ∧
    (Run (some i) desired store opts feed).events.getLast?
      = some (Event.actionGroup ActionType.waitAction "wait-0" GroupPhase.finished) := by
  rw [Run_ok i desired store opts feed A P hp]
  have hwd : decide (0 < opts.reconcileTimeout) = true := decide_eq_true hw
  constructor
  · rw [runFromPrepared_cancelled, hwd, hnr]
    rfl
  · rw [runFromPrepared_events, if_pos hwd, if_pos (by rw [hwd, hnr]; rfl)]
    rw [List.append_nil, init_blocksOf_getLast]

/-- Witness for C5: with a one-tick reconcile timeout and an empty status
feed, the run on one desired Deployment is cancelled during the wait and the
Wait group's Finished event closes the stream. -/
theorem C5_cancel_during_wait_witness :
    prepareObjects (some wInv) [wRes1] [] wOptsWait = Except.ok ([wRes1], [wMeta2]) ∧
    0 < wOptsWait.reconcileTimeout ∧
    reconciledAll [] ([wRes1].map (fun r => r.meta)) = false ∧
    ((Run (some wInv) [wRes1] [] wOptsWait []).cancelled = true ∧
     (Run (some wInv) [wRes1] [] wOptsWait []).events.getLast?
       = some (Event.actionGroup ActionType.waitAction "wait-0" GroupPhase.finished)) :=
  ⟨rfl, by decide, by decide,
   C5_cancel_during_wait wInv [wRes1] [] wOptsWait [] [wRes1] [wMeta2] rfl (by decide) (by decide)⟩

/-! ### Ownership conflicts are per-object and never abort the run -/

/-- C6: a desired resource failing the InventoryPolicy ownership check gets
an Apply event carrying the ownership-conflict error, is excluded from the
apply set, and the apply batch still runs to completion (its Finished event
is emitted) - the failure never aborts the batch or the run. -/
theorem C6_ownership_conflict_isolated (i : InventoryInfo) (desired store : List Resource)
    (opts : Options) (feed : List StatusUpdate) (A : List Resource) (P : List ObjMetadata)
    (r : Resource)
    (hp : prepareObjects (some i) desired store opts = Except.ok (A, P))
    (hnd : (desired.map (fun x => x.meta)).Nodup)
    (hr : r ∈ desired)
    (hc : canApply opts.inventoryPolicy i.id (storeLookup store r.meta) = false) :
    Event.applyEvent "apply-0" r.meta ApplyOperation.errored (some ObjectError.ownershipConflict)
      ∈ (Run (some i) desired store opts feed).events ∧
    r ∉ A ∧
    Event.actionGroup ActionType.applyAction "apply-0" GroupPhase.finished
      ∈ (Run (some i) desired store opts feed).events := by
  have hev : (applyOne opts.inventoryPolicy i.id "apply-0" store r).2
      = Event.applyEvent "apply-0" r.meta ApplyOperation.errored
          (some ObjectError.ownershipConflict) := by
    rw [applyOne, if_neg (by rw [hc]; exact Bool.false_ne_true)]
  refine ⟨?_, ?_, ?_⟩
  · have hin := applyBatch_event_of_mem opts.inventoryPolicy i.id "apply-0" desired store r hnd hr
    rw [hev] at hin
    exact apply_block_mem_events i desired store opts feed A P _ hp
      ((mem_groupBlock _ _ _ _).mpr (Or.inr (Or.inl hin)))
  · intro hrA
    obtain ⟨-, hA, -⟩ := prepareObjects_ok_inv i desired store opts A P hp
    rw [hA, List.mem_filter, hc] at hrA
    exact Bool.false_ne_true hrA.2
  · exact apply_block_mem_events i desired store opts feed A P _ hp
      ((mem_groupBlock _ _ _ _).mpr (Or.inr (Or.inr rfl)))

/-- Witness for C6: applying a Deployment whose live object is owned by
inventory id "unmatched" under MustMatch yields the errored Apply event,
exclusion from the apply set, and a completed apply group. -/
theorem C6_ownership_conflict_isolated_witness :
    prepareObjects (some wInv) [wRes1] [wResOwnedOther] wOpts = Except.ok ([], [wMeta2]) ∧
    ([wRes1].map (fun x => x.meta)).Nodup ∧
    wRes1 ∈ [wRes1] ∧
    canApply wOpts.inventoryPolicy wInv.id (storeLookup [wResOwnedOther] wRes1.meta) = false ∧
    (Event.applyEvent "apply-0" wRes1.meta ApplyOperation.errored
        (some ObjectError.ownershipConflict)
      ∈ (Run (some wInv) [wRes1] [wResOwnedOther] wOpts []).events ∧
     wRes1 ∉ ([] : List Resource) ∧
     Event.actionGroup ActionType.applyAction "apply-0" GroupPhase.finished
      ∈ (Run (some wInv) [wRes1] [wResOwnedOther] wOpts []).events) :=
  ⟨rfl, by decide, by decide, by decide,
   C6_ownership_conflict_isolated wInv [wRes1] [wResOwnedOther] wOpts [] [] [wMeta2] wRes1
     rfl (by decide) (by decide) (by decide)⟩

/-! ### Prune deletes only owned objects -/

/-- C7: a prune-set resource whose live object carries a different (or no)
owner annotation is skipped - it gets a PruneSkipped event and survives in
the store - while a live object annotated with the run's own inventory id is
deleted and gets a Pruned event. -/
theorem C7_prune_delete_if_owned (i : InventoryInfo) (desired store : List Resource)
    (opts : Options) (feed : List StatusUpdate) (A : List Resource) (P : List ObjMetadata)
    (id : ObjMetadata) (l : Resource)
    (hp : prepareObjects (some i) desired store opts = Except.ok (A, P))
    (hset : i.set.Nodup)
    (hid : id ∈ P)
    (hl : storeLookup store id = some l)
    (hnc : 0 < opts.reconcileTimeout → reconciledAll feed (A.map (fun r => r.meta)) = true) :
    (l.owner ≠ some i.id →
      Event.pruneEvent "prune-0" id PruneOperation.pruneSkipped
        ∈ (Run (some i) desired store opts feed).events ∧
      storeLookup (Run (some i) desired store opts feed).store id = some l) ∧
    (l.owner = some i.id →
      Event.pruneEvent "prune-0" id PruneOperation.pruned
        ∈ (Run (some i) desired store opts feed).events ∧
      storeLookup (Run (some i) desired store opts feed).store id = none) := by
  obtain ⟨-, -, hP⟩ := prepareObjects_ok_inv i desired store opts A P hp
  have hidP : id ∉ desired.map (fun x => x.meta) := by
    by_cases hnp : opts.noPrune = true
    · rw [hP, if_pos hnp] at hid
      cases hid
    · rw [hP, if_neg hnp, List.mem_reverse, List.mem_filter] at hid
      intro hmem
      have hany : desired.any (fun x => decide (x.meta = id)) = true := by
        rw [List.any_eq_true]
        obtain ⟨x, hx, hxm⟩ := List.mem_map.mp hmem
        exact ⟨x, hx, by simp [hxm]⟩
      have h2 := hid.2
      rw [hany] at h2
      cases h2
  have hPnd : P.Nodup := by
    by_cases hnp : opts.noPrune = true
    · rw [hP, if_pos hnp]
      exact List.nodup_nil
    · rw [hP, if_neg hnp]
      exact List.nodup_reverse.mpr (hset.filter _)
  have hcc : (decide (0 < opts.reconcileTimeout)
      && !reconciledAll feed (A.map (fun r => r.meta))) = false := by
    by_cases hw : 0 < opts.reconcileTimeout
    · rw [decide_eq_true hw, hnc hw]
      rfl
    · rw [decide_eq_false hw]
      rfl
  have hPne : P ≠ [] := by
    intro hPnil
    rw [hPnil] at hid
    cases hid
  have hl1 : storeLookup (applyBatch opts.inventoryPolicy i.id "apply-0" store desired).1 id
      = some l := by
    rw [applyBatch_store_other opts.inventoryPolicy i.id "apply-0" desired store id hidP, hl]
  have hstore : (Run (some i) desired store opts feed).store
      = (pruneBatch i.id "prune-0"
          (applyBatch opts.inventoryPolicy i.id "apply-0" store desired).1 P).1 := by
    rw [Run_ok i desired store opts feed A P hp, runFromPrepared_store,
      if_neg (by rw [hcc]; exact Bool.false_ne_true)]
  constructor
  · intro hown
    have hev : (pruneOne i.id "prune-0"
        (applyBatch opts.inventoryPolicy i.id "apply-0" store desired).1 id).2.1
        = Event.pruneEvent "prune-0" id PruneOperation.pruneSkipped := by
      rw [pruneOne, hl1]
      simp only []
      rw [if_neg hown]
    constructor
    · have hin := pruneBatch_event_of_mem i.id "prune-0" P
        (applyBatch opts.inventoryPolicy i.id "apply-0" store desired).1 id hPnd hid
      rw [hev] at hin
      exact prune_block_mem_events i desired store opts feed A P _ hp hPne hcc
        ((mem_groupBlock _ _ _ _).mpr (Or.inr (Or.inl hin)))
    · rw [hstore, pruneBatch_lookup_final i.id "prune-0" P _ id l hPnd hid hl1, if_neg hown]
  · intro hown
    have hev : (pruneOne i.id "prune-0"
        (applyBatch opts.inventoryPolicy i.id "apply-0" store desired).1 id).2.1
        = Event.pruneEvent "prune-0" id PruneOperation.pruned := by
      rw [pruneOne, hl1]
      simp only []
      rw [if_pos hown]
    constructor
    · have hin := pruneBatch_event_of_mem i.id "prune-0" P
        (applyBatch opts.inventoryPolicy i.id "apply-0" store desired).1 id hPnd hid
      rw [hev] at hin
      exact prune_block_mem_events i desired store opts feed A P _ hp hPne hcc
        ((mem_groupBlock _ _ _ _).mpr (Or.inr (Or.inl hin)))
    · rw [hstore, pruneBatch_lookup_final i.id "prune-0" P _ id l hPnd hid hl1, if_pos hown]

/-- Witness for C7: pruning a ledger-owned Secret whose live object is
annotated with owner "other" (not this run's id "test") skips the deletion
with a PruneSkipped event and leaves the object in the store. -/
theorem C7_prune_delete_if_owned_witness :
    prepareObjects (some wInv) [] [wSecretOwnedOther] wOpts = Except.ok ([], [wMeta2]) ∧
    wInv.set.Nodup ∧
    wMeta2 ∈ [wMeta2] ∧
    storeLookup [wSecretOwnedOther] wMeta2 = some wSecretOwnedOther ∧
    wSecretOwnedOther.owner ≠ some wInv.id ∧
    ((wSecretOwnedOther.owner ≠ some wInv.id →
        Event.pruneEvent "prune-0" wMeta2 PruneOperation.pruneSkipped
          ∈ (Run (some wInv) [] [wSecretOwnedOther] wOpts []).events ∧
        storeLookup (Run (some wInv) [] [wSecretOwnedOther] wOpts []).store wMeta2
          = some wSecretOwnedOther) ∧
     (wSecretOwnedOther.owner = some wInv.id →
        Event.pruneEvent "prune-0" wMeta2 PruneOperation.pruned
          ∈ (Run (some wInv) [] [wSecretOwnedOther] wOpts []).events ∧
        storeLookup (Run (some wInv) [] [wSecretOwnedOther] wOpts []).store wMeta2 = none)) :=
  ⟨rfl, by decide, by decide, by decide, by decide,
   C7_prune_delete_if_owned wInv [] [wSecretOwnedOther] wOpts [] [] [wMeta2] wMeta2
     wSecretOwnedOther rfl (by decide) (by decide) (by decide) (by decide)⟩

/-! ### Idempotence of a second run -/

theorem Run_store_lookup_desired (i : InventoryInfo) (desired store : List Resource)
    (opts : Options) (feed : List StatusUpdate) (A : List Resource) (P : List ObjMetadata)
    (r : Resource)
    (hp : prepareObjects (some i) desired store opts = Except.ok (A, P))
    (hnd : (desired.map (fun x => x.meta)).Nodup)
    (hr : r ∈ desired)
    (hca : canApply opts.inventoryPolicy i.id (storeLookup store r.meta) = true) :
    ∃ l2, storeLookup (Run (some i) desired store opts feed).store r.meta = some l2 ∧
      l2.spec = r.spec ∧ canApply opts.inventoryPolicy i.id (some l2) = true := by
  obtain ⟨l2, h1, h2, h3⟩ :=
    applyBatch_lookup_self opts.inventoryPolicy i.id "apply-0" desired store r hnd hr hca
  have hrP : r.meta ∉ P := by
    obtain ⟨-, -, hP⟩ := prepareObjects_ok_inv i desired store opts A P hp
    intro hmem
    by_cases hnp : opts.noPrune = true
    · rw [hP, if_pos hnp] at hmem
      cases hmem
    · rw [hP, if_neg hnp, List.mem_reverse, List.mem_filter] at hmem
      have hany : desired.any (fun x => decide (x.meta = r.meta)) = true := by
        rw [List.any_eq_true]
        exact ⟨r, hr, by simp⟩
      have h4 := hmem.2
      rw [hany] at h4
      cases h4
  rw [Run_ok i desired store opts feed A P hp, runFromPrepared_store]
  by_cases hcc2 : (decide (0 < opts.reconcileTimeout)
      && !reconciledAll feed (A.map (fun r => r.meta))) = true
  · rw [if_pos hcc2]
    exact ⟨l2, h1, h2, h3⟩
  · rw [if_neg hcc2, pruneBatch_store_other i.id "prune-0" P _ r.meta hrP, h1]
    exact ⟨l2, rfl, h2, h3⟩

/-- C8: running the engine a second time with the same desired set against
the store left by the first run (whose apply passed the ownership check for
every desired resource) yields an Unchanged Apply event for every resource,
and every Apply event the second run emits for such a resource is Unchanged
with no error - never Created or Updated. -/
theorem C8_second_run_unchanged (i : InventoryInfo) (desired store : List Resource)
    (opts : Options) (feed1 feed2 : List StatusUpdate) (A : List Resource) (P : List ObjMetadata)
    (hp : prepareObjects (some i) desired store opts = Except.ok (A, P))
    (hnd : (desired.map (fun x => x.meta)).Nodup)
    (hca : ∀ r ∈ desired, canApply opts.inventoryPolicy i.id (storeLookup store r.meta) = true) :
    ∀ r ∈ desired,
      (Event.applyEvent "apply-0" r.meta ApplyOperation.unchanged none
        ∈ (Run (some { i with set := (Run (some i) desired store opts feed1).ledger })
            desired (Run (some i) desired store opts feed1).store opts feed2).events) ∧
      (∀ op err,
        Event.applyEvent "apply-0" r.meta op err
          ∈ (Run (some { i with set := (Run (some i) desired store opts feed1).ledger })
              desired (Run (some i) desired store opts feed1).store opts feed2).events →
        op = ApplyOperation.unchanged ∧ err = none) := by
  intro r hr
  have hq : desired.any (fun x => decide (x.meta
      = invObjMeta { i with set := (Run (some i) desired store opts feed1).ledger })) = false := by
    obtain ⟨hq1, -, -⟩ := prepareObjects_ok_inv i desired store opts A P hp
    exact hq1
  have hp2 : prepareObjects (some { i with set := (Run (some i) desired store opts feed1).ledger })
      desired (Run (some i) desired store opts feed1).store opts = Except.ok
      (desired.filter (fun x => canApply opts.inventoryPolicy
        ({ i with set := (Run (some i) desired store opts feed1).ledger }).id
        (storeLookup (Run (some i) desired store opts feed1).store x.meta)),
       if opts.noPrune then []
       else (({ i with set := (Run (some i) desired store opts feed1).ledger }).set.filter
         (fun id => !(desired.any (fun x => decide (x.meta = id))))).reverse) := by
    rw [prepareObjects, if_neg (by rw [hq]; exact Bool.false_ne_true)]
  obtain ⟨l2, hl2, hspec2, hca2⟩ :=
    Run_store_lookup_desired i desired store opts feed1 A P r hp hnd hr (hca r hr)
  have hca2b : canApply opts.inventoryPolicy
      ({ i with set := (Run (some i) desired store opts feed1).ledger }).id
      (storeLookup (Run (some i) desired store opts feed1).store r.meta) = true := by
    rw [hl2]
    exact hca2
  have hev2 : (applyOne opts.inventoryPolicy
      ({ i with set := (Run (some i) desired store opts feed1).ledger }).id "apply-0"
      (Run (some i) desired store opts feed1).store r).2
      = Event.applyEvent "apply-0" r.meta ApplyOperation.unchanged none := by
    rw [applyOne, if_pos hca2b, hl2]
    simp only []
    rw [if_pos hspec2]
  constructor
  · have hin := applyBatch_event_of_mem opts.inventoryPolicy
      ({ i with set := (Run (some i) desired store opts feed1).ledger }).id "apply-0"
      desired (Run (some i) desired store opts feed1).store r hnd hr
    rw [hev2] at hin
    exact apply_block_mem_events _ desired _ opts feed2 _ _ _ hp2
      ((mem_groupBlock _ _ _ _).mpr (Or.inr (Or.inl hin)))
  · intro op err hmem
    have hbatch := Run_applyEvent_inversion _ desired _ opts feed2 _ _ "apply-0" r.meta op err
      hp2 hmem
    have huniq := applyBatch_event_unique opts.inventoryPolicy
      ({ i with set := (Run (some i) desired store opts feed1).ledger }).id "apply-0"
      desired (Run (some i) desired store opts feed1).store r hnd hr op err hbatch
    rw [hev2] at huniq
    obtain ⟨-, -, hop, herr⟩ := (Event.applyEvent.injEq _ _ _ _ _ _ _ _).mp huniq
    exact ⟨hop, herr⟩

/-- Witness for C8: a first run creates the Deployment in an empty store;
the second run with the same desired set emits Unchanged (and only
Unchanged) for it. -/
theorem C8_second_run_unchanged_witness :
    prepareObjects (some wInv) [wRes1] [] wOpts = Except.ok ([wRes1], [wMeta2]) ∧
    ([wRes1].map (fun x => x.meta)).Nodup ∧
    (∀ r ∈ [wRes1], canApply wOpts.inventoryPolicy wInv.id (storeLookup [] r.meta) = true) ∧
    ((Event.applyEvent "apply-0" wRes1.meta ApplyOperation.unchanged none
        ∈ (Run (some { wInv with set := (Run (some wInv) [wRes1] [] wOpts []).ledger })
            [wRes1] (Run (some wInv) [wRes1] [] wOpts []).store wOpts []).events) ∧
     (∀ op err,
        Event.applyEvent "apply-0" wRes1.meta op err
          ∈ (Run (some { wInv with set := (Run (some wInv) [wRes1] [] wOpts []).ledger })
              [wRes1] (Run (some wInv) [wRes1] [] wOpts []).store wOpts []).events →
        op = ApplyOperation.unchanged ∧ err = none)) :=
  ⟨rfl, by decide, by decide,
   C8_second_run_unchanged wInv [wRes1] [] wOpts [] [] [wRes1] [wMeta2]
     rfl (by decide) (by decide) wRes1 (by decide)⟩

end CliUtils
